import Mathlib

/-!
# Iterator seminar: multi-order traversal of a playlist

A shallow embedding of `src/Iterator/main.cpp`.

* `Song`, `Playlist` and `ConcreteIterator` are the classes of the program.
* `vector<T>` is a `List`; `privatePlaylist.push_back(item)` appends at the end.
* `vector<int>::iterator myIt` is modelled by its offset from `index.begin()`, so
  `index.begin()` is offset `0`, `index.end()` is offset `index.size()` and `myIt++` adds one.
* `const Playlist<T>& playlistRef` is a reference to a playlist that lives outside the iterator
  and may grow after the iterator was built.  The operations that read through the reference
  (`sortIndices`, `current`) therefore take the playlist, in its state at the time of the call,
  as an argument.
* `std::sort` is library code.  It is a parameter `stdSort` of the embedding, and the only thing
  assumed about it is the postcondition the C++ standard gives it (`StdSortContract`).
  `insertionSort` is one function that meets the contract.
* `std::string` is `String`.  Its `operator<` is the lexicographic order on bytes, which on
  UTF-8 text is the lexicographic order on code points that `String` carries.
* The `int` fields `length` and `popularity` carry no arithmetic in this program and are `Int`.
  Positions are `Nat`: the `int` counter of the constructor counts the records of a vector and
  is taken not to overflow.
* The loop of `ClientCode` may not end from every state, so it takes fuel (`drainLoop`).
-/

namespace IteratorSeminar

/-! ## Data classes -/

/-- The class `Song`: four public fields, set by the constructor without any check. -/
structure Song where
  title : String
  artist : String
  length : Int
  popularity : Int
deriving DecidableEq

/-- The class `Playlist<Song>`: the private vector of records, in insertion order. -/
structure Playlist where
  privatePlaylist : List Song
deriving DecidableEq

/-- The state of a `ConcreteIterator<Song>`: the vector `index` and the position `myIt`,
kept as an offset into `index`. -/
structure ConcreteIterator where
  index : List Nat
  myIt : Nat
deriving DecidableEq

/-- What an operation can raise: the `out_of_range` exception of `current`, and
`undefined_behaviour` for a read outside a vector (which the C++ program does not check). -/
inductive Exception where
  | out_of_range
  | undefined_behaviour
deriving DecidableEq

/-- The three traversal orders a `Playlist` offers. -/
inductive Order where
  | alphabetic
  | length
  | popularity
deriving DecidableEq

/-! ## The library sort -/

/-- The type of `std::sort` on a `vector<int>` with a comparator. -/
abbrev StdSort := (Nat → Nat → Bool) → List Nat → List Nat

/-- The `Compare` requirement of the C++ standard on the values of `l`: `comp` is a strict weak
ordering there (irreflexive, transitive, and with transitive incomparability). -/
def StrictWeakOrderOn {α : Type} (comp : α → α → Bool) (l : List α) : Prop :=
  (∀ a ∈ l, comp a a = false) ∧
  (∀ a ∈ l, ∀ b ∈ l, ∀ c ∈ l, comp a b = true → comp b c = true → comp a c = true) ∧
  (∀ a ∈ l, ∀ b ∈ l, ∀ c ∈ l, comp a b = false → comp b a = false →
    comp b c = false → comp c b = false → comp a c = false ∧ comp c a = false)

/-- The postcondition of `std::sort`: when the comparator is a strict weak ordering on the
values of the range, the result is a rearrangement of the range in which no element is
`comp`-less than an element before it. -/
def StdSortContract (stdSort : StdSort) : Prop :=
  ∀ comp l, StrictWeakOrderOn comp l →
    (stdSort comp l).Perm l ∧ (stdSort comp l).Pairwise (fun a b => comp b a = false)

/-- Insert `x` in front of the first element it is `comp`-less than. -/
def orderedInsert (comp : Nat → Nat → Bool) (x : Nat) : List Nat → List Nat
  | [] => [x]
  | y :: ys => if comp x y then x :: y :: ys else y :: orderedInsert comp x ys

/-- A sorting function that meets `StdSortContract` (see `insertionSort_contract`). -/
def insertionSort : StdSort := fun comp l => l.foldr (orderedInsert comp) []

/-! ## `ConcreteIterator` -/

/-- The constructor `ConcreteIterator(playlist)`: `index` gets `0, 1, …, size - 1` and `myIt`
is `index.begin()`. -/
def ConcreteIterator.new (playlist : Playlist) : ConcreteIterator :=
  { index := List.range playlist.privatePlaylist.length, myIt := 0 }

/-- The lambda of `sortIndices`: `comp(privatePlaylist[a], privatePlaylist[b])`. -/
def indexCompare (playlist : Playlist) (comp : Song → Song → Bool) (a b : Nat) : Bool :=
  match playlist.privatePlaylist[a]?, playlist.privatePlaylist[b]? with
  | some x, some y => comp x y
  | _, _ => false

/-- The method `sortIndices(comp)`: sort `index` with the lifted comparator, then put `myIt`
back to `index.begin()`. -/
def ConcreteIterator.sortIndices (stdSort : StdSort) (playlist : Playlist)
    (comp : Song → Song → Bool) (it : ConcreteIterator) : ConcreteIterator :=
  { index := stdSort (indexCompare playlist comp) it.index, myIt := 0 }

/-- The method `first()`: `myIt = index.begin()`. -/
def ConcreteIterator.first (it : ConcreteIterator) : ConcreteIterator :=
  { it with myIt := 0 }

/-- The method `next()`: `myIt++`, with no test. -/
def ConcreteIterator.next (it : ConcreteIterator) : ConcreteIterator :=
  { it with myIt := it.myIt + 1 }

/-- The method `hasNext()`: `myIt != index.end()`. -/
def ConcreteIterator.hasNext (it : ConcreteIterator) : Bool :=
  it.myIt != it.index.length

/-- The method `current()`: throws `out_of_range` when `myIt == index.end()`, otherwise returns
`privatePlaylist[*myIt]`, read through the reference to the playlist. -/
def ConcreteIterator.current (it : ConcreteIterator) (playlist : Playlist) :
    Except Exception Song :=
  if it.myIt = it.index.length then .error .out_of_range
  else
    match it.index[it.myIt]? with
    | none => .error .undefined_behaviour
    | some i =>
      match playlist.privatePlaylist[i]? with
      | none => .error .undefined_behaviour
      | some s => .ok s

/-! ## The three iterators -/

/-- The comparator of `AlphabeticIterator`: `a.title < b.title`. -/
def titleLess (a b : Song) : Bool := decide (a.title < b.title)

/-- The comparator of `LengthIterator`: `a.length > b.length`. -/
def lengthGreater (a b : Song) : Bool := decide (a.length > b.length)

/-- The comparator of `PopularityIterator`: `a.popularity > b.popularity`. -/
def popularityGreater (a b : Song) : Bool := decide (a.popularity > b.popularity)

/-- The constructor `AlphabeticIterator(playlist)`. -/
def AlphabeticIterator.new (stdSort : StdSort) (playlist : Playlist) : ConcreteIterator :=
  (ConcreteIterator.new playlist).sortIndices stdSort playlist titleLess

/-- The constructor `LengthIterator(playlist)`. -/
def LengthIterator.new (stdSort : StdSort) (playlist : Playlist) : ConcreteIterator :=
  (ConcreteIterator.new playlist).sortIndices stdSort playlist lengthGreater

/-- The constructor `PopularityIterator(playlist)`. -/
def PopularityIterator.new (stdSort : StdSort) (playlist : Playlist) : ConcreteIterator :=
  (ConcreteIterator.new playlist).sortIndices stdSort playlist popularityGreater

/-! ## `Playlist` -/

/-- The method `addToTheList(item)`: `privatePlaylist.push_back(item)`. -/
def Playlist.addToTheList (playlist : Playlist) (item : Song) : Playlist :=
  { privatePlaylist := playlist.privatePlaylist ++ [item] }

/-- The method `createAlphabeticIterator()`. -/
def Playlist.createAlphabeticIterator (stdSort : StdSort) (playlist : Playlist) :
    ConcreteIterator :=
  AlphabeticIterator.new stdSort playlist

/-- The method `createLengthIterator()`. -/
def Playlist.createLengthIterator (stdSort : StdSort) (playlist : Playlist) :
    ConcreteIterator :=
  LengthIterator.new stdSort playlist

/-- The method `createPopularityIterator()`. -/
def Playlist.createPopularityIterator (stdSort : StdSort) (playlist : Playlist) :
    ConcreteIterator :=
  PopularityIterator.new stdSort playlist

/-- The `create…Iterator` method that belongs to an order. -/
def Playlist.createIterator (stdSort : StdSort) (playlist : Playlist) : Order → ConcreteIterator
  | .alphabetic => playlist.createAlphabeticIterator stdSort
  | .length => playlist.createLengthIterator stdSort
  | .popularity => playlist.createPopularityIterator stdSort

/-- The comparator the constructor of each iterator class hands to `sortIndices`. -/
def Order.comp : Order → Song → Song → Bool
  | .alphabetic => titleLess
  | .length => lengthGreater
  | .popularity => popularityGreater

/-- Several `addToTheList` calls in a row. -/
def Playlist.addAll (playlist : Playlist) (items : List Song) : Playlist :=
  items.foldl Playlist.addToTheList playlist

/-- The playlist that `ClientCode` builds with four `addToTheList` calls. -/
def myFavoriteSongs : Playlist :=
  ((((Playlist.mk []).addToTheList ⟨"Bohemian", "a", 354, 1000⟩).addToTheList
    ⟨"Stairway", "b", 482, 800⟩).addToTheList
    ⟨"Imagined", "c", 183, 1200⟩).addToTheList
    ⟨"Hey Jude", "d", 431, 900⟩

/-! ## The operations as calls of a client -/

/-- The operations of the program: the four methods of `Playlist` and the four methods of the
iterator it hands out. -/
inductive Call where
  | addToTheList (item : Song)
  | createAlphabeticIterator
  | createLengthIterator
  | createPopularityIterator
  | first
  | hasNext
  | next
  | current

/-- What a call hands back: nothing, the `bool` of `hasNext`, or the record of `current`. -/
inductive Returned where
  | void
  | bool (b : Bool)
  | record (s : Song)
deriving DecidableEq

/-- What a client holds: the playlist and an iterator obtained from it. -/
structure Client where
  playlist : Playlist
  it : ConcreteIterator
deriving DecidableEq

/-- One call made by the client: the value handed back and the new state, or the exception
raised.  A `create…Iterator` call makes the new iterator the one the client holds. -/
def Call.run (stdSort : StdSort) : Call → Client → Except Exception (Returned × Client)
  | .addToTheList item, c =>
    .ok (.void, { c with playlist := c.playlist.addToTheList item })
  | .createAlphabeticIterator, c =>
    .ok (.void, { c with it := c.playlist.createAlphabeticIterator stdSort })
  | .createLengthIterator, c =>
    .ok (.void, { c with it := c.playlist.createLengthIterator stdSort })
  | .createPopularityIterator, c =>
    .ok (.void, { c with it := c.playlist.createPopularityIterator stdSort })
  | .first, c => .ok (.void, { c with it := c.it.first })
  | .hasNext, c => .ok (.bool c.it.hasNext, c)
  | .next, c => .ok (.void, { c with it := c.it.next })
  | .current, c =>
    match c.it.current c.playlist with
    | .ok s => .ok (.record s, c)
    | .error e => .error e

/-! ## The traversal loop of `ClientCode` -/

/-- The loop `for (…; It->hasNext(); It->next()) { … It->current() … }` from the state `it`:
the records read and the state the iterator is left in.  `none` means that `fuel` rounds were
not enough; an exception of `current()` ends the loop. -/
def drainLoop (playlist : Playlist) :
    Nat → ConcreteIterator → Option (Except Exception (List Song × ConcreteIterator))
  | 0, _ => none
  | fuel + 1, it =>
    if it.hasNext then
      match it.current playlist with
      | .error e => some (.error e)
      | .ok s =>
        match drainLoop playlist fuel it.next with
        | some (.ok (rest, last)) => some (.ok (s :: rest, last))
        | other => other
    else some (.ok ([], it))

/-- The whole loop `for (It->first(); It->hasNext(); It->next())`. -/
def drain (playlist : Playlist) (fuel : Nat) (it : ConcreteIterator) :
    Option (Except Exception (List Song × ConcreteIterator)) :=
  drainLoop playlist fuel it.first

/-- The records of a playlist at a list of positions, in the order of the positions. -/
def recordsAt (playlist : Playlist) (positions : List Nat) : List Song :=
  positions.filterMap (fun i => playlist.privatePlaylist[i]?)

/-- The two calls that move the cursor of an iterator. -/
inductive Move where
  | first
  | next
deriving DecidableEq

/-- The state of an iterator after one cursor call. -/
def Move.apply : Move → ConcreteIterator → ConcreteIterator
  | .first, it => it.first
  | .next, it => it.next

/-- The state of an iterator after a finite sequence of `first()` and `next()` calls, made
from left to right. -/
def ConcreteIterator.after (it : ConcreteIterator) (moves : List Move) : ConcreteIterator :=
  moves.foldl (fun s m => m.apply s) it

/-- The records of a playlist have pairwise distinct values of the key of an order. -/
def Order.keysDistinct : Order → Playlist → Prop
  | .alphabetic, p => (p.privatePlaylist.map Song.title).Nodup
  | .length, p => (p.privatePlaylist.map Song.length).Nodup
  | .popularity, p => (p.privatePlaylist.map Song.popularity).Nodup

instance (o : Order) (p : Playlist) : Decidable (o.keysDistinct p) := by
  cases o <;> unfold Order.keysDistinct <;> infer_instance

end IteratorSeminar

/-!
# Visitor seminar: export of school entities

A shallow embedding of `src/Visitor/main.cpp`.

* The four element classes are `Student`, `Teacher`, `Equipment` and `Class`; a
  `SchoolEntity*` is a value of `SchoolEntity`, one constructor per class.  A class holds its
  members by pointer; the embedding takes the objects to form a tree, as in `main`.
* What is written to `std::cout` is the list of lines written, one per `<< std::endl`.
* Virtual dispatch is pattern matching: `accept` calls the `visit…` method of its own class.
-/

namespace VisitorSeminar

/-! ## Element classes -/

/-- The class `Student`. -/
structure Student where
  studentId : String
  name : String
  status : String
deriving DecidableEq

/-- The class `Teacher`. -/
structure Teacher where
  employeeId : String
  subject : String
  status : String
deriving DecidableEq

/-- The class `Equipment`. -/
structure Equipment where
  itemId : String
  description : String
  status : String
deriving DecidableEq

mutual
/-- What a `SchoolEntity*` points to. -/
inductive SchoolEntity where
  | ofStudent (s : Student)
  | ofTeacher (t : Teacher)
  | ofEquipment (e : Equipment)
  | ofClass (c : Class)
/-- The class `Class`: `name`, `members`, `status`. -/
inductive Class where
  | mk (name : String) (members : List SchoolEntity) (status : String)
end

/-- The constructor `Student(id, n)`. -/
def Student.new (id n : String) : Student :=
  { studentId := id, name := n, status := "Active" }

/-- The constructor `Teacher(id, sub)`. -/
def Teacher.new (id sub : String) : Teacher :=
  { employeeId := id, subject := sub, status := "Active" }

/-- The constructor `Equipment(id, desc)`. -/
def Equipment.new (id desc : String) : Equipment :=
  { itemId := id, description := desc, status := "In Use" }

/-- The constructor `Class(n)`: no members yet. -/
def Class.new (n : String) : Class :=
  .mk n [] "Active"

/-- The method `Class::addMember(member)`: `members.push_back(member)`. -/
def Class.addMember : Class → SchoolEntity → Class
  | .mk name members status, member => .mk name (members ++ [member]) status

/-- The method `Class::getName()`. -/
def Class.getName : Class → String
  | .mk name _ _ => name

/-- The method `Class::getMembers()`. -/
def Class.getMembers : Class → List SchoolEntity
  | .mk _ members _ => members

/-- The field `status` of a `Class`. -/
def Class.status : Class → String
  | .mk _ _ status => status

/-- The method `Class::updateStatus(newStatus)`: the new object and the line written. -/
def Class.updateStatus : Class → String → Class × List String
  | .mk name members _, newStatus =>
    (.mk name members newStatus, ["Class " ++ name ++ " status updated to: " ++ newStatus])

/-- The method `Student::getDetail(context)`. -/
def Student.getDetail (s : Student) (context : String) : String :=
  if context = "id" then s.studentId
  else if context = "name" then s.name
  else "Student: ID=" ++ s.studentId ++ ", Name=" ++ s.name ++ ", Status=" ++ s.status

/-- The method `Teacher::getDetail(context)`. -/
def Teacher.getDetail (t : Teacher) (context : String) : String :=
  if context = "id" then t.employeeId
  else if context = "subject" then t.subject
  else "Teacher: ID=" ++ t.employeeId ++ ", Subject=" ++ t.subject ++ ", Status=" ++ t.status

/-- The method `Equipment::getDetail(context)`. -/
def Equipment.getDetail (e : Equipment) (context : String) : String :=
  if context = "id" then e.itemId
  else if context = "description" then e.description
  else "Equipment: ID=" ++ e.itemId ++ ", Description=" ++ e.description
    ++ ", Status=" ++ e.status

mutual
/-- The virtual method `SchoolEntity::getDetail(context)`. -/
def SchoolEntity.getDetail : SchoolEntity → String → String
  | .ofStudent s, context => s.getDetail context
  | .ofTeacher t, context => t.getDetail context
  | .ofEquipment e, context => e.getDetail context
  | .ofClass c, context => c.getDetail context
/-- The method `Class::getDetail(context)`. -/
def Class.getDetail : Class → String → String
  | .mk name members status, context =>
    if context = "name" then name
    else
      Class.getDetailLoop members.length members 0
        ("Class: Name=" ++ name ++ ", Status=" ++ status ++ ", Members=[") ++ "]"
/-- The loop `for (size_t i = 0; i < members.size(); ++i)` of `Class::getDetail`, from
position `i` on, `size` being `members.size()` and the list the members from `members[i]` on.
Inside the loop `size` is at least one, so `members.size() - 1` does not wrap. -/
def Class.getDetailLoop (size : Nat) : List SchoolEntity → Nat → String → String
  | [], _, details => details
  | m :: rest, i, details =>
    Class.getDetailLoop size rest (i + 1)
      (if i < size - 1 then details ++ m.getDetail "name" ++ ", "
       else details ++ m.getDetail "name")
end

/-! ## The visitor -/

/-- The method `XMLExportVisitor::visitStudent(s)`. -/
def XMLExportVisitor.visitStudent (s : Student) : List String :=
  ["  <student id='" ++ s.getDetail "id" ++ "' name='" ++ s.getDetail "name" ++ "'/>"]

/-- The method `XMLExportVisitor::visitTeacher(t)`. -/
def XMLExportVisitor.visitTeacher (t : Teacher) : List String :=
  ["  <teacher id='" ++ t.getDetail "id" ++ "' subject='" ++ t.getDetail "subject" ++ "'/>"]

/-- The method `XMLExportVisitor::visitEquipment(e)`. -/
def XMLExportVisitor.visitEquipment (e : Equipment) : List String :=
  ["  <equipment id='" ++ e.getDetail "id" ++ "' description='"
    ++ e.getDetail "description" ++ "'/>"]

mutual
/-- The virtual method `accept(v)` with `v` an `XMLExportVisitor`: each class calls its own
`visit…` method. -/
def SchoolEntity.accept : SchoolEntity → List String
  | .ofStudent s => XMLExportVisitor.visitStudent s
  | .ofTeacher t => XMLExportVisitor.visitTeacher t
  | .ofEquipment e => XMLExportVisitor.visitEquipment e
  | .ofClass c => XMLExportVisitor.visitClass c
/-- The method `XMLExportVisitor::visitClass(c)`. -/
def XMLExportVisitor.visitClass : Class → List String
  | .mk name members _ =>
    ["<class name='" ++ name ++ "'>"] ++ XMLExportVisitor.visitMembers members
      ++ ["</class>"]
/-- The loop `for (SchoolEntity* member : c->getMembers()) member->accept(this)`. -/
def XMLExportVisitor.visitMembers : List SchoolEntity → List String
  | [] => []
  | member :: rest => member.accept ++ XMLExportVisitor.visitMembers rest
end

/-! ## The application -/

/-- The class `Application`. -/
structure Application where
  entities : List SchoolEntity

/-- The method `Application::addEntity(entity)`: `entities.push_back(entity)`. -/
def Application.addEntity (app : Application) (entity : SchoolEntity) : Application :=
  { entities := app.entities ++ [entity] }

/-- The loop `for (SchoolEntity* entity : entities) entity->accept(&exporter)`. -/
def Application.exportEntities : List SchoolEntity → List String
  | [] => []
  | entity :: rest => entity.accept ++ Application.exportEntities rest

/-- The method `Application::exportToXML()`. -/
def Application.exportToXML (app : Application) : List String :=
  ["<school>"] ++ Application.exportEntities app.entities ++ ["</school>"]

/-- The application that `main` builds: the class `Science 101` with a student, a teacher and
a microscope, and a second student outside any class. -/
def schoolApp : Application :=
  ((Application.mk []).addEntity
    (.ofClass ((((Class.new "Science 101").addMember
      (.ofStudent (Student.new "S1001" "Alice"))).addMember
      (.ofTeacher (Teacher.new "T2001" "Physics"))).addMember
      (.ofEquipment (Equipment.new "E3001" "High-power microscope"))))).addEntity
    (.ofStudent (Student.new "S1002" "Bob"))

/-! ## Nesting of the lines written -/

/-- The two elements that are opened and closed by lines of their own. -/
inductive Tag where
  | school
  | cls
deriving DecidableEq

/-- Close the innermost open element, which has to be `tag`. -/
def closeTag (tag : Tag) : List Tag → Option (List Tag)
  | [] => none
  | top :: below => if top = tag then some below else none

/-- Read lines in order, keeping the stack of open elements: `<school>` and a line that starts
with `<class name='` open an element, `</school>` and `</class>` close the innermost open
element, which has to be of their kind; every other line leaves the stack as it is.  The
result is the stack after the last line, `none` when a closing line does not match. -/
def nesting : List String → List Tag → Option (List Tag)
  | [], stack => some stack
  | line :: rest, stack =>
    if line = "<school>" then nesting rest (.school :: stack)
    else if line = "</school>" then (closeTag .school stack).bind (nesting rest)
    else if line = "</class>" then (closeTag .cls stack).bind (nesting rest)
    else if "<class name='".toList.isPrefixOf line.toList then nesting rest (.cls :: stack)
    else nesting rest stack

end VisitorSeminar

namespace IteratorSeminar

/-! ## The sort contract is met by `insertionSort` -/

section Sorting

theorem orderedInsert_perm (comp : Nat → Nat → Bool) (x : Nat) (l : List Nat) :
    (orderedInsert comp x l).Perm (x :: l) := by
  induction l with
  | nil => simp [orderedInsert]
  | cons y ys ih =>
    unfold orderedInsert
    split
    · exact List.Perm.refl _
    · exact (List.Perm.cons y ih).trans (List.Perm.swap x y ys)

theorem insertionSort_perm (comp : Nat → Nat → Bool) (l : List Nat) :
    (insertionSort comp l).Perm l := by
  induction l with
  | nil => simp [insertionSort]
  | cons x xs ih =>
    have h := orderedInsert_perm comp x (insertionSort comp xs)
    exact h.trans (List.Perm.cons x ih)

theorem StrictWeakOrderOn.asymm {α : Type} {comp : α → α → Bool} {l : List α}
    (h : StrictWeakOrderOn comp l) {a b : α} (ha : a ∈ l) (hb : b ∈ l)
    (hab : comp a b = true) : comp b a = false := by
  cases hba : comp b a with
  | false => rfl
  | true =>
    have h1 := h.2.1 a ha b hb a ha hab hba
    rw [h.1 a ha] at h1
    exact absurd h1 (by decide)

theorem orderedInsert_pairwise {comp : Nat → Nat → Bool} {L : List Nat} (h : StrictWeakOrderOn comp L) (x : Nat)
    (hx : x ∈ L) (l : List Nat) (hl : ∀ a ∈ l, a ∈ L)
    (hs : l.Pairwise (fun a b => comp b a = false)) :
    (orderedInsert comp x l).Pairwise (fun a b => comp b a = false) := by
  induction l with
  | nil => simp [orderedInsert]
  | cons y ys ih =>
    have hy : y ∈ L := hl y (List.mem_cons_self y ys)
    have hys : ∀ a ∈ ys, a ∈ L := fun a ha => hl a (List.mem_cons_of_mem y ha)
    rw [List.pairwise_cons] at hs
    unfold orderedInsert
    split
    · rename_i hxy
      rw [List.pairwise_cons]
      refine ⟨?_, List.pairwise_cons.mpr hs⟩
      intro z hz
      rcases List.mem_cons.mp hz with rfl | hz
      · exact h.asymm hx hy hxy
      · cases hzx : comp z x with
        | false => rfl
        | true =>
          have h1 := h.2.1 z (hys z hz) x hx y hy hzx hxy
          rw [hs.1 z hz] at h1
          exact absurd h1 (by decide)
    · rename_i hxy
      rw [List.pairwise_cons]
      refine ⟨?_, ih hys hs.2⟩
      intro z hz
      rcases List.mem_cons.mp ((orderedInsert_perm comp x ys).mem_iff.mp hz) with rfl | hz
      · simpa using hxy
      · exact hs.1 z hz

theorem insertionSort_pairwise {comp : Nat → Nat → Bool} {L : List Nat} (h : StrictWeakOrderOn comp L) (l : List Nat)
    (hl : ∀ a ∈ l, a ∈ L) :
    (insertionSort comp l).Pairwise (fun a b => comp b a = false) := by
  induction l with
  | nil => simp [insertionSort]
  | cons x xs ih =>
    have hxs : ∀ a ∈ xs, a ∈ L := fun a ha => hl a (List.mem_cons_of_mem x ha)
    exact orderedInsert_pairwise h x (hl x (List.mem_cons_self x xs)) (insertionSort comp xs)
      (fun a ha => hxs a ((insertionSort_perm comp xs).mem_iff.mp ha)) (ih hxs)

/-- The function `insertionSort` meets the postcondition of `std::sort`. -/
theorem insertionSort_contract : StdSortContract insertionSort := by
  intro comp l h
  exact ⟨insertionSort_perm comp l, insertionSort_pairwise h l (fun _ ha => ha)⟩

end Sorting

/-! ## The three comparators are strict weak orderings -/

section Comparators

theorem strictWeakOrderOn_of_key_lt {K : Type} [LinearOrder K] (key : Song → K)
    (comp : Song → Song → Bool) (hcomp : ∀ a b, comp a b = decide (key a < key b))
    (l : List Song) : StrictWeakOrderOn comp l := by
  refine ⟨?_, ?_, ?_⟩
  · intro a _
    simp [hcomp]
  · intro a _ b _ c _ hab hbc
    simp only [hcomp, decide_eq_true_eq] at hab hbc ⊢
    exact lt_trans hab hbc
  · intro a _ b _ c _ hab hba hbc hcb
    simp only [hcomp, decide_eq_false_iff_not, not_lt] at hab hba hbc hcb ⊢
    have h1 : key a = key b := le_antisymm hba hab
    have h2 : key b = key c := le_antisymm hcb hbc
    constructor
    · exact le_of_eq (h1.trans h2).symm
    · exact le_of_eq (h1.trans h2)

theorem strictWeakOrderOn_of_key_gt {K : Type} [LinearOrder K] (key : Song → K)
    (comp : Song → Song → Bool) (hcomp : ∀ a b, comp a b = decide (key a > key b))
    (l : List Song) : StrictWeakOrderOn comp l := by
  refine ⟨?_, ?_, ?_⟩
  · intro a _
    simp [hcomp]
  · intro a _ b _ c _ hab hbc
    simp only [hcomp, decide_eq_true_eq, gt_iff_lt] at hab hbc ⊢
    exact lt_trans hbc hab
  · intro a _ b _ c _ hab hba hbc hcb
    simp only [hcomp, decide_eq_false_iff_not, not_lt, gt_iff_lt] at hab hba hbc hcb ⊢
    have h1 : key a = key b := le_antisymm hab hba
    have h2 : key b = key c := le_antisymm hbc hcb
    constructor
    · exact le_of_eq (h1.trans h2)
    · exact le_of_eq (h1.trans h2).symm

theorem titleLess_strictWeakOrderOn (l : List Song) : StrictWeakOrderOn titleLess l :=
  strictWeakOrderOn_of_key_lt Song.title titleLess (fun _ _ => by simp [titleLess]) l

theorem lengthGreater_strictWeakOrderOn (l : List Song) : StrictWeakOrderOn lengthGreater l :=
  strictWeakOrderOn_of_key_gt Song.length lengthGreater (fun _ _ => by simp [lengthGreater]) l

theorem popularityGreater_strictWeakOrderOn (l : List Song) :
    StrictWeakOrderOn popularityGreater l :=
  strictWeakOrderOn_of_key_gt Song.popularity popularityGreater
    (fun _ _ => by simp [popularityGreater]) l

theorem indexCompare_eq (playlist : Playlist) (comp : Song → Song → Bool) {a b : Nat}
    (ha : a < playlist.privatePlaylist.length) (hb : b < playlist.privatePlaylist.length) :
    indexCompare playlist comp a b
      = comp (playlist.privatePlaylist.get ⟨a, ha⟩) (playlist.privatePlaylist.get ⟨b, hb⟩) := by
  simp [indexCompare, List.getElem?_eq_getElem ha, List.getElem?_eq_getElem hb]

/-- A strict weak ordering of the records, lifted to positions, is a strict weak ordering of
any list of valid positions. -/
theorem indexCompare_strictWeakOrderOn (playlist : Playlist) (comp : Song → Song → Bool)
    (h : StrictWeakOrderOn comp playlist.privatePlaylist) (l : List Nat)
    (hl : ∀ a ∈ l, a < playlist.privatePlaylist.length) :
    StrictWeakOrderOn (indexCompare playlist comp) l := by
  have hm : ∀ (a : Nat) (ha : a < playlist.privatePlaylist.length),
      playlist.privatePlaylist.get ⟨a, ha⟩ ∈ playlist.privatePlaylist :=
    fun a ha => List.get_mem _ _ _
  refine ⟨?_, ?_, ?_⟩
  · intro a ha
    rw [indexCompare_eq playlist comp (hl a ha) (hl a ha)]
    exact h.1 _ (hm a (hl a ha))
  · intro a ha b hb c hc
    rw [indexCompare_eq playlist comp (hl a ha) (hl b hb),
      indexCompare_eq playlist comp (hl b hb) (hl c hc),
      indexCompare_eq playlist comp (hl a ha) (hl c hc)]
    exact h.2.1 _ (hm a (hl a ha)) _ (hm b (hl b hb)) _ (hm c (hl c hc))
  · intro a ha b hb c hc
    rw [indexCompare_eq playlist comp (hl a ha) (hl b hb),
      indexCompare_eq playlist comp (hl b hb) (hl a ha),
      indexCompare_eq playlist comp (hl b hb) (hl c hc),
      indexCompare_eq playlist comp (hl c hc) (hl b hb),
      indexCompare_eq playlist comp (hl a ha) (hl c hc),
      indexCompare_eq playlist comp (hl c hc) (hl a ha)]
    exact h.2.2 _ (hm a (hl a ha)) _ (hm b (hl b hb)) _ (hm c (hl c hc))

end Comparators

/-! ## Facts about the playlist and the traversal loop -/

section Traversal

theorem addAll_privatePlaylist (playlist : Playlist) (items : List Song) :
    (playlist.addAll items).privatePlaylist = playlist.privatePlaylist ++ items := by
  induction items generalizing playlist with
  | nil => simp [Playlist.addAll]
  | cons r rs ih =>
    have h := ih (playlist.addToTheList r)
    simp only [Playlist.addAll, List.foldl_cons] at h ⊢
    rw [h]
    simp [Playlist.addToTheList]

theorem recordsAt_nil (playlist : Playlist) : recordsAt playlist [] = [] := rfl

theorem recordsAt_cons (playlist : Playlist) (i : Nat) (l : List Nat)
    (hi : i < playlist.privatePlaylist.length) :
    recordsAt playlist (i :: l)
      = playlist.privatePlaylist.get ⟨i, hi⟩ :: recordsAt playlist l := by
  simp [recordsAt, List.filterMap_cons, List.getElem?_eq_getElem hi]

theorem recordsAt_eq_map (playlist : Playlist) (l : List Nat)
    (hl : ∀ i ∈ l, i < playlist.privatePlaylist.length) :
    (recordsAt playlist l).map some = l.map (fun i => playlist.privatePlaylist[i]?) := by
  induction l with
  | nil => rfl
  | cons i is ih =>
    have hi := hl i (List.mem_cons_self i is)
    rw [recordsAt_cons playlist i is hi, List.map_cons, List.map_cons,
      ih (fun j hj => hl j (List.mem_cons_of_mem i hj))]
    simp [List.getElem?_eq_getElem hi]

theorem recordsAt_length (playlist : Playlist) (l : List Nat)
    (hl : ∀ i ∈ l, i < playlist.privatePlaylist.length) :
    (recordsAt playlist l).length = l.length := by
  have h := congrArg List.length (recordsAt_eq_map playlist l hl)
  simpa using h

theorem recordsAt_addAll (playlist : Playlist) (items : List Song) (l : List Nat)
    (hl : ∀ i ∈ l, i < playlist.privatePlaylist.length) :
    recordsAt (playlist.addAll items) l = recordsAt playlist l := by
  induction l with
  | nil => rfl
  | cons i is ih =>
    have hi := hl i (List.mem_cons_self i is)
    have hi2 : i < (playlist.addAll items).privatePlaylist.length := by
      rw [addAll_privatePlaylist, List.length_append]; omega
    rw [recordsAt_cons playlist i is hi, recordsAt_cons _ i is hi2,
      ih (fun j hj => hl j (List.mem_cons_of_mem i hj))]
    congr 1
    simp only [List.get_eq_getElem, addAll_privatePlaylist]
    exact List.getElem_append_left hi

theorem recordsAt_range (playlist : Playlist) :
    recordsAt playlist (List.range playlist.privatePlaylist.length)
      = playlist.privatePlaylist := by
  apply List.map_injective_iff.mpr (Option.some_injective Song)
  rw [recordsAt_eq_map playlist _ (fun i hi => List.mem_range.mp hi)]
  apply List.ext_getElem?
  intro n
  simp only [List.getElem?_map, List.getElem?_range]
  by_cases h : n < playlist.privatePlaylist.length
  · simp [List.getElem?_range h, List.getElem?_eq_getElem h]
  · have h1 : (List.range playlist.privatePlaylist.length)[n]? = none :=
      List.getElem?_eq_none (by simpa using h)
    have h2 : playlist.privatePlaylist[n]? = none := List.getElem?_eq_none (by omega)
    simp [h1, h2]

/-- From a cursor inside the index vector the loop ends, having read the records at the
remaining positions, and leaves the cursor at the end. -/
theorem drainLoop_eq (playlist : Playlist) (index : List Nat)
    (hvalid : ∀ i ∈ index, i < playlist.privatePlaylist.length) :
    ∀ (fuel k : Nat), k ≤ index.length → index.length - k < fuel →
      drainLoop playlist fuel { index := index, myIt := k }
        = some (.ok (recordsAt playlist (index.drop k),
            { index := index, myIt := index.length })) := by
  intro fuel
  induction fuel with
  | zero => intro k _ hf; omega
  | succ fuel ih =>
    intro k hk hf
    rcases Nat.lt_or_eq_of_le hk with hlt | heq
    · have hget : index[k]? = some (index.get ⟨k, hlt⟩) := List.getElem?_eq_getElem hlt
      have hmem : index.get ⟨k, hlt⟩ ∈ index := List.get_mem _ _ _
      have hi := hvalid _ hmem
      have hdrop : index.drop k = index.get ⟨k, hlt⟩ :: index.drop (k + 1) := by
        simp
      have hrec := ih (k + 1) hlt (by omega)
      have hne : (k != index.length) = true := by simp; omega
      have hne2 : ¬ k = index.length := by omega
      simp only [drainLoop, ConcreteIterator.hasNext, ConcreteIterator.current,
        ConcreteIterator.next, hne, hne2, if_true, if_false, hget,
        List.getElem?_eq_getElem hi, hrec]
      rw [hdrop, recordsAt_cons playlist _ _ hi]
      rfl
    · subst heq
      simp [drainLoop, ConcreteIterator.hasNext, recordsAt]

/-- The whole loop on an iterator whose positions are valid for the playlist. -/
theorem drain_eq (playlist : Playlist) (it : ConcreteIterator)
    (hvalid : ∀ i ∈ it.index, i < playlist.privatePlaylist.length)
    (fuel : Nat) (hf : it.index.length < fuel) :
    drain playlist fuel it
      = some (.ok (recordsAt playlist it.index,
          { index := it.index, myIt := it.index.length })) := by
  have h := drainLoop_eq playlist it.index hvalid fuel 0 (Nat.zero_le _) (by omega)
  simpa [drain, ConcreteIterator.first] using h

end Traversal

/-! ## Facts about the construction of an iterator -/

section Construction

theorem createIterator_eq (stdSort : StdSort) (playlist : Playlist) (o : Order) :
    playlist.createIterator stdSort o
      = (ConcreteIterator.new playlist).sortIndices stdSort playlist o.comp := by
  cases o <;> rfl

theorem Order.comp_strictWeakOrderOn (o : Order) (l : List Song) :
    StrictWeakOrderOn o.comp l := by
  cases o
  · exact titleLess_strictWeakOrderOn l
  · exact lengthGreater_strictWeakOrderOn l
  · exact popularityGreater_strictWeakOrderOn l

/-- What the contract of the sort gives for the index vector of a new iterator. -/
theorem createIterator_index (stdSort : StdSort) (hs : StdSortContract stdSort)
    (playlist : Playlist) (o : Order) :
    (playlist.createIterator stdSort o).index.Perm
        (List.range playlist.privatePlaylist.length) ∧
      (playlist.createIterator stdSort o).index.Pairwise
        (fun a b => indexCompare playlist o.comp b a = false) := by
  rw [createIterator_eq]
  exact hs (indexCompare playlist o.comp) (List.range playlist.privatePlaylist.length)
    (indexCompare_strictWeakOrderOn playlist o.comp (o.comp_strictWeakOrderOn _) _
      (fun a ha => List.mem_range.mp ha))

theorem createIterator_myIt (stdSort : StdSort) (playlist : Playlist) (o : Order) :
    (playlist.createIterator stdSort o).myIt = 0 := by
  cases o <;> rfl

theorem createIterator_valid (stdSort : StdSort) (hs : StdSortContract stdSort)
    (playlist : Playlist) (o : Order) :
    ∀ i ∈ (playlist.createIterator stdSort o).index, i < playlist.privatePlaylist.length :=
  fun _ hi => List.mem_range.mp ((createIterator_index stdSort hs playlist o).1.mem_iff.mp hi)

theorem createIterator_length (stdSort : StdSort) (hs : StdSortContract stdSort)
    (playlist : Playlist) (o : Order) :
    (playlist.createIterator stdSort o).index.length = playlist.privatePlaylist.length := by
  have h := (createIterator_index stdSort hs playlist o).1.length_eq
  simpa using h

theorem createIterator_valid_addAll (stdSort : StdSort) (hs : StdSortContract stdSort)
    (playlist : Playlist) (o : Order) (items : List Song) :
    ∀ i ∈ (playlist.createIterator stdSort o).index,
      i < (playlist.addAll items).privatePlaylist.length := by
  intro i hi
  have h := createIterator_valid stdSort hs playlist o i hi
  rw [addAll_privatePlaylist, List.length_append]
  omega

theorem mem_recordsAt {playlist : Playlist} {l : List Nat} {s : Song}
    (h : s ∈ recordsAt playlist l) : ∃ i ∈ l, playlist.privatePlaylist[i]? = some s := by
  simpa [recordsAt, List.mem_filterMap] using h

/-- Positions sorted by the lifted comparator give records sorted by the comparator. -/
theorem recordsAt_pairwise (playlist : Playlist) (comp : Song → Song → Bool) (l : List Nat)
    (hl : ∀ i ∈ l, i < playlist.privatePlaylist.length)
    (hs : l.Pairwise (fun a b => indexCompare playlist comp b a = false)) :
    (recordsAt playlist l).Pairwise (fun x y => comp y x = false) := by
  induction l with
  | nil => simp [recordsAt]
  | cons i is ih =>
    have hi := hl i (List.mem_cons_self i is)
    have his : ∀ j ∈ is, j < playlist.privatePlaylist.length :=
      fun j hj => hl j (List.mem_cons_of_mem i hj)
    rw [List.pairwise_cons] at hs
    rw [recordsAt_cons playlist i is hi, List.pairwise_cons]
    refine ⟨?_, ih his hs.2⟩
    intro y hy
    obtain ⟨j, hj, hjy⟩ := mem_recordsAt hy
    have hlt := his j hj
    have h := hs.1 j hj
    rw [indexCompare_eq playlist comp hlt hi] at h
    rw [List.getElem?_eq_getElem hlt] at hjy
    have hy2 : playlist.privatePlaylist.get ⟨j, hlt⟩ = y := by
      simpa using hjy
    rw [hy2] at h
    exact h

/-- The full traversal of a new iterator: it ends, and reads the records at the positions of
the index vector, which are sorted by the comparator of the order. -/
theorem drain_createIterator (stdSort : StdSort) (hs : StdSortContract stdSort)
    (playlist : Playlist) (o : Order) (items : List Song) (fuel : Nat)
    (hf : playlist.privatePlaylist.length < fuel) :
    drain (playlist.addAll items) fuel (playlist.createIterator stdSort o)
      = some (.ok (recordsAt playlist (playlist.createIterator stdSort o).index,
          { index := (playlist.createIterator stdSort o).index,
            myIt := playlist.privatePlaylist.length })) := by
  have h := drain_eq (playlist.addAll items) (playlist.createIterator stdSort o)
    (createIterator_valid_addAll stdSort hs playlist o items) fuel
    (by rw [createIterator_length stdSort hs]; exact hf)
  rw [h, recordsAt_addAll playlist items _ (createIterator_valid stdSort hs playlist o),
    createIterator_length stdSort hs]

theorem addAll_nil (playlist : Playlist) : playlist.addAll [] = playlist := rfl

/-- The exception `out_of_range` is raised by `current` exactly at the end position. -/
theorem current_out_of_range_iff (it : ConcreteIterator) (playlist : Playlist) :
    it.current playlist = .error .out_of_range ↔ it.hasNext = false := by
  unfold ConcreteIterator.current ConcreteIterator.hasNext
  by_cases h : it.myIt = it.index.length
  · simp [h]
  · simp only [h, if_false]
    constructor
    · intro hc
      split at hc
      · cases hc
      · split at hc <;> cases hc
    · intro hc
      simp [h] at hc

/-- On an entry of the index vector that is a valid position, `current` returns the record
stored there. -/
theorem current_ok (it : ConcreteIterator) (playlist : Playlist)
    (hk : it.myIt < it.index.length)
    (hvalid : ∀ i ∈ it.index, i < playlist.privatePlaylist.length) :
    ∃ i s, it.index[it.myIt]? = some i ∧ playlist.privatePlaylist[i]? = some s ∧
      it.current playlist = .ok s := by
  have hget : it.index[it.myIt]? = some (it.index.get ⟨it.myIt, hk⟩) :=
    List.getElem?_eq_getElem hk
  have hi := hvalid _ (List.get_mem it.index it.myIt hk)
  have hs : playlist.privatePlaylist[it.index.get ⟨it.myIt, hk⟩]?
      = some (playlist.privatePlaylist.get ⟨it.index.get ⟨it.myIt, hk⟩, hi⟩) :=
    List.getElem?_eq_getElem hi
  refine ⟨_, _, hget, hs, ?_⟩
  have hne : ¬ it.myIt = it.index.length := by omega
  simp only [ConcreteIterator.current, hne, if_false, hget, hs]

theorem after_index (it : ConcreteIterator) (moves : List Move) :
    (it.after moves).index = it.index := by
  induction moves generalizing it with
  | nil => rfl
  | cons m ms ih =>
    have h := ih (m.apply it)
    simp only [ConcreteIterator.after, List.foldl_cons] at h ⊢
    rw [h]
    cases m <;> rfl

theorem after_replicate_next (it : ConcreteIterator) (n : Nat) :
    (it.after (List.replicate n .next)).myIt = it.myIt + n := by
  induction n generalizing it with
  | zero => rfl
  | succ n ih =>
    have h := ih it.next
    have hstep : it.after (List.replicate (n + 1) .next)
        = it.next.after (List.replicate n .next) := by
      simp only [ConcreteIterator.after, List.replicate_succ, List.foldl_cons]
      rfl
    rw [hstep, h]
    simp only [ConcreteIterator.next]
    omega

/-- With pairwise distinct keys, two different valid positions are comparable under the
lifted comparator of the order. -/
theorem keysDistinct_comparable (playlist : Playlist) (o : Order)
    (hd : o.keysDistinct playlist) (a b : Nat)
    (ha : a < playlist.privatePlaylist.length) (hb : b < playlist.privatePlaylist.length)
    (hne : a ≠ b) :
    indexCompare playlist o.comp a b = true ∨ indexCompare playlist o.comp b a = true := by
  rw [indexCompare_eq playlist o.comp ha hb, indexCompare_eq playlist o.comp hb ha]
  cases o with
  | alphabetic =>
    have hd2 : (playlist.privatePlaylist.map Song.title).Nodup := hd
    have hk : (playlist.privatePlaylist.get ⟨a, ha⟩).title
        ≠ (playlist.privatePlaylist.get ⟨b, hb⟩).title := by
      intro heq
      have ha2 : a < (playlist.privatePlaylist.map Song.title).length := by simpa using ha
      have hb2 : b < (playlist.privatePlaylist.map Song.title).length := by simpa using hb
      have h := (@List.Nodup.getElem_inj_iff _ _ hd2 a ha2 b hb2).mp (by simpa using heq)
      exact hne h
    rcases lt_or_gt_of_ne hk with h | h
    · left; simpa [Order.comp, titleLess] using h
    · right; simpa [Order.comp, titleLess] using h
  | length =>
    have hd2 : (playlist.privatePlaylist.map Song.length).Nodup := hd
    have hk : (playlist.privatePlaylist.get ⟨a, ha⟩).length
        ≠ (playlist.privatePlaylist.get ⟨b, hb⟩).length := by
      intro heq
      have ha2 : a < (playlist.privatePlaylist.map Song.length).length := by simpa using ha
      have hb2 : b < (playlist.privatePlaylist.map Song.length).length := by simpa using hb
      have h := (@List.Nodup.getElem_inj_iff _ _ hd2 a ha2 b hb2).mp (by simpa using heq)
      exact hne h
    rcases lt_or_gt_of_ne hk with h | h
    · right; simpa [Order.comp, lengthGreater] using h
    · left; simpa [Order.comp, lengthGreater] using h
  | popularity =>
    have hd2 : (playlist.privatePlaylist.map Song.popularity).Nodup := hd
    have hk : (playlist.privatePlaylist.get ⟨a, ha⟩).popularity
        ≠ (playlist.privatePlaylist.get ⟨b, hb⟩).popularity := by
      intro heq
      have ha2 : a < (playlist.privatePlaylist.map Song.popularity).length := by
        simpa using ha
      have hb2 : b < (playlist.privatePlaylist.map Song.popularity).length := by
        simpa using hb
      have h := (@List.Nodup.getElem_inj_iff _ _ hd2 a ha2 b hb2).mp (by simpa using heq)
      exact hne h
    rcases lt_or_gt_of_ne hk with h | h
    · right; simpa [Order.comp, popularityGreater] using h
    · left; simpa [Order.comp, popularityGreater] using h

theorem indexCompare_in_range (playlist : Playlist) (comp : Song → Song → Bool) {a b : Nat}
    (h : indexCompare playlist comp a b = true) :
    a < playlist.privatePlaylist.length ∧ b < playlist.privatePlaylist.length := by
  unfold indexCompare at h
  by_cases ha : a < playlist.privatePlaylist.length
  · by_cases hb : b < playlist.privatePlaylist.length
    · exact ⟨ha, hb⟩
    · have hn : playlist.privatePlaylist[b]? = none := List.getElem?_eq_none (by omega)
      simp [hn] at h
  · have hn : playlist.privatePlaylist[a]? = none := List.getElem?_eq_none (by omega)
    simp [hn] at h

/-- With pairwise distinct keys there is one sorted arrangement of the positions only. -/
theorem sorted_positions_unique (playlist : Playlist) (o : Order)
    (hd : o.keysDistinct playlist) (l₁ l₂ : List Nat)
    (h₁ : l₁.Perm (List.range playlist.privatePlaylist.length))
    (h₂ : l₂.Perm (List.range playlist.privatePlaylist.length))
    (s₁ : l₁.Pairwise (fun a b => indexCompare playlist o.comp b a = false))
    (s₂ : l₂.Pairwise (fun a b => indexCompare playlist o.comp b a = false)) :
    l₁ = l₂ := by
  have hswo := indexCompare_strictWeakOrderOn playlist o.comp
    (o.comp_strictWeakOrderOn playlist.privatePlaylist)
    (List.range playlist.privatePlaylist.length) (fun a ha => List.mem_range.mp ha)
  have strict : ∀ l : List Nat, l.Perm (List.range playlist.privatePlaylist.length) →
      l.Pairwise (fun a b => indexCompare playlist o.comp b a = false) →
      l.Pairwise (fun a b => indexCompare playlist o.comp a b = true) := by
    intro l hl hs
    have hnd : l.Nodup := hl.nodup_iff.mpr (List.nodup_range _)
    have hboth := hs.and hnd
    refine hboth.imp_of_mem ?_
    intro a b ha hb hab
    have ha2 := List.mem_range.mp (hl.mem_iff.mp ha)
    have hb2 := List.mem_range.mp (hl.mem_iff.mp hb)
    rcases keysDistinct_comparable playlist o hd a b ha2 hb2 hab.2 with h | h
    · exact h
    · rw [hab.1] at h
      exact absurd h (by decide)
  haveI : IsAntisymm Nat (fun a b => indexCompare playlist o.comp a b = true) :=
    ⟨fun a b hab hba => by
      have hr := indexCompare_in_range playlist o.comp hab
      have h := hswo.asymm (List.mem_range.mpr hr.1) (List.mem_range.mpr hr.2) hab
      rw [hba] at h
      exact absurd h (by decide)⟩
  exact List.eq_of_perm_of_sorted (h₁.trans h₂.symm) (strict l₁ h₁ s₁) (strict l₂ h₂ s₂)

end Construction

/-! ## The claims -/

section Claims

/-- C1: for every playlist (non-empty or not) and every sort that meets the contract of
`std::sort`, the canonical loop `first(); while hasNext(): current(), next()` on a new
`AlphabeticIterator` ends, with enough fuel, and the records it reads have titles in
non-decreasing lexicographic order: the title of each record is `≤` the title of the record
read right after it, and of every record read later. -/
theorem C1_alphabetic_drain_titles_nondecreasing (stdSort : StdSort)
    (hs : StdSortContract stdSort) (playlist : Playlist) (fuel : Nat)
    (hf : playlist.privatePlaylist.length < fuel) :
    ∃ out last,
      drain playlist fuel (playlist.createAlphabeticIterator stdSort) = some (.ok (out, last)) ∧
      out.length = playlist.privatePlaylist.length ∧
      out.Chain' (fun a b => a.title ≤ b.title) ∧
      out.Pairwise (fun a b => a.title ≤ b.title) := by
  have hd := drain_createIterator stdSort hs playlist .alphabetic [] fuel hf
  have hv := createIterator_valid stdSort hs playlist .alphabetic
  have hp := recordsAt_pairwise playlist titleLess _ hv
    (createIterator_index stdSort hs playlist .alphabetic).2
  have hsorted : (recordsAt playlist
      (playlist.createIterator stdSort .alphabetic).index).Pairwise
      (fun a b => a.title ≤ b.title) := by
    refine hp.imp ?_
    intro a b hab
    simp only [titleLess, decide_eq_false_iff_not] at hab
    exact not_lt.mp hab
  refine ⟨_, _, hd, ?_, hsorted.chain', hsorted⟩
  rw [recordsAt_length playlist _ hv, createIterator_length stdSort hs]

theorem C1_witness :
    StdSortContract insertionSort ∧ myFavoriteSongs.privatePlaylist.length < 5 ∧
    ∃ out last,
      drain myFavoriteSongs 5 (myFavoriteSongs.createAlphabeticIterator insertionSort)
        = some (.ok (out, last)) ∧
      out.length = myFavoriteSongs.privatePlaylist.length ∧
      out.Chain' (fun a b => a.title ≤ b.title) ∧
      out.Pairwise (fun a b => a.title ≤ b.title) :=
  ⟨insertionSort_contract, by decide,
    C1_alphabetic_drain_titles_nondecreasing insertionSort insertionSort_contract
      myFavoriteSongs 5 (by decide)⟩

/-- C2: for every playlist (non-empty or not) and every sort that meets the contract of
`std::sort`, the canonical loop on a new `LengthIterator` ends and reads records whose
`length` values are in non-increasing order, and the canonical loop on a new
`PopularityIterator` ends and reads records whose `popularity` values are in non-increasing
order. -/
theorem C2_length_and_popularity_drain_nonincreasing (stdSort : StdSort)
    (hs : StdSortContract stdSort) (playlist : Playlist) (fuel : Nat)
    (hf : playlist.privatePlaylist.length < fuel) :
    (∃ out last,
      drain playlist fuel (playlist.createLengthIterator stdSort) = some (.ok (out, last)) ∧
      out.length = playlist.privatePlaylist.length ∧
      out.Chain' (fun a b => a.length ≥ b.length) ∧
      out.Pairwise (fun a b => a.length ≥ b.length)) ∧
    (∃ out last,
      drain playlist fuel (playlist.createPopularityIterator stdSort)
        = some (.ok (out, last)) ∧
      out.length = playlist.privatePlaylist.length ∧
      out.Chain' (fun a b => a.popularity ≥ b.popularity) ∧
      out.Pairwise (fun a b => a.popularity ≥ b.popularity)) := by
  constructor
  · have hd := drain_createIterator stdSort hs playlist .length [] fuel hf
    have hv := createIterator_valid stdSort hs playlist .length
    have hp := recordsAt_pairwise playlist lengthGreater _ hv
      (createIterator_index stdSort hs playlist .length).2
    have hsorted : (recordsAt playlist
        (playlist.createIterator stdSort .length).index).Pairwise
        (fun a b => a.length ≥ b.length) := by
      refine hp.imp ?_
      intro a b hab
      simp only [lengthGreater, decide_eq_false_iff_not] at hab
      omega
    refine ⟨_, _, hd, ?_, hsorted.chain', hsorted⟩
    rw [recordsAt_length playlist _ hv, createIterator_length stdSort hs]
  · have hd := drain_createIterator stdSort hs playlist .popularity [] fuel hf
    have hv := createIterator_valid stdSort hs playlist .popularity
    have hp := recordsAt_pairwise playlist popularityGreater _ hv
      (createIterator_index stdSort hs playlist .popularity).2
    have hsorted : (recordsAt playlist
        (playlist.createIterator stdSort .popularity).index).Pairwise
        (fun a b => a.popularity ≥ b.popularity) := by
      refine hp.imp ?_
      intro a b hab
      simp only [popularityGreater, decide_eq_false_iff_not] at hab
      omega
    refine ⟨_, _, hd, ?_, hsorted.chain', hsorted⟩
    rw [recordsAt_length playlist _ hv, createIterator_length stdSort hs]

theorem C2_witness :
    StdSortContract insertionSort ∧ myFavoriteSongs.privatePlaylist.length < 5 ∧
    ((∃ out last,
      drain myFavoriteSongs 5 (myFavoriteSongs.createLengthIterator insertionSort)
        = some (.ok (out, last)) ∧
      out.length = myFavoriteSongs.privatePlaylist.length ∧
      out.Chain' (fun a b => a.length ≥ b.length) ∧
      out.Pairwise (fun a b => a.length ≥ b.length)) ∧
    (∃ out last,
      drain myFavoriteSongs 5 (myFavoriteSongs.createPopularityIterator insertionSort)
        = some (.ok (out, last)) ∧
      out.length = myFavoriteSongs.privatePlaylist.length ∧
      out.Chain' (fun a b => a.popularity ≥ b.popularity) ∧
      out.Pairwise (fun a b => a.popularity ≥ b.popularity))) :=
  ⟨insertionSort_contract, by decide,
    C2_length_and_popularity_drain_nonincreasing insertionSort insertionSort_contract
      myFavoriteSongs 5 (by decide)⟩

/-- C3: for every playlist of size `n`, each of the three orders and every sort that meets the
contract of `std::sort`, the index vector of a new iterator is a permutation of the positions
`0 … n-1`: it has `n` entries, every position below `n` occurs in it exactly once, every entry
is a valid position of the playlist, and the canonical loop reads a rearrangement of the
records of the playlist (equal records counted as often as they are stored). -/
theorem C3_index_is_permutation_of_positions (stdSort : StdSort)
    (hs : StdSortContract stdSort) (playlist : Playlist) (o : Order) :
    (playlist.createIterator stdSort o).index.Perm
        (List.range playlist.privatePlaylist.length) ∧
      (playlist.createIterator stdSort o).index.length = playlist.privatePlaylist.length ∧
      (∀ i, i < playlist.privatePlaylist.length →
        (playlist.createIterator stdSort o).index.count i = 1) ∧
      (∀ i, playlist.privatePlaylist.length ≤ i →
        (playlist.createIterator stdSort o).index.count i = 0) ∧
      (∀ i ∈ (playlist.createIterator stdSort o).index, i < playlist.privatePlaylist.length) ∧
      (∀ fuel, playlist.privatePlaylist.length < fuel →
        ∃ out last,
          drain playlist fuel (playlist.createIterator stdSort o) = some (.ok (out, last)) ∧
          out = recordsAt playlist (playlist.createIterator stdSort o).index ∧
          out.Perm playlist.privatePlaylist) := by
  have hperm := (createIterator_index stdSort hs playlist o).1
  have hv := createIterator_valid stdSort hs playlist o
  refine ⟨hperm, createIterator_length stdSort hs playlist o, ?_, ?_, hv, ?_⟩
  · intro i hi
    rw [hperm.count_eq]
    exact List.count_eq_one_of_mem (List.nodup_range _) (List.mem_range.mpr hi)
  · intro i hi
    rw [hperm.count_eq]
    exact List.count_eq_zero_of_not_mem (fun h => by
      have := List.mem_range.mp h
      omega)
  · intro fuel hf
    refine ⟨_, _, drain_createIterator stdSort hs playlist o [] fuel hf, rfl, ?_⟩
    have h := hperm.filterMap (fun i => playlist.privatePlaylist[i]?)
    have hr := recordsAt_range playlist
    unfold recordsAt at hr ⊢
    rw [hr] at h
    exact h

theorem C3_witness :
    StdSortContract insertionSort ∧
    ((myFavoriteSongs.createIterator insertionSort .popularity).index.Perm
        (List.range myFavoriteSongs.privatePlaylist.length) ∧
      (myFavoriteSongs.createIterator insertionSort .popularity).index.length
        = myFavoriteSongs.privatePlaylist.length ∧
      (∀ i, i < myFavoriteSongs.privatePlaylist.length →
        (myFavoriteSongs.createIterator insertionSort .popularity).index.count i = 1) ∧
      (∀ i, myFavoriteSongs.privatePlaylist.length ≤ i →
        (myFavoriteSongs.createIterator insertionSort .popularity).index.count i = 0) ∧
      (∀ i ∈ (myFavoriteSongs.createIterator insertionSort .popularity).index,
        i < myFavoriteSongs.privatePlaylist.length) ∧
      (∀ fuel, myFavoriteSongs.privatePlaylist.length < fuel →
        ∃ out last,
          drain myFavoriteSongs fuel (myFavoriteSongs.createIterator insertionSort .popularity)
            = some (.ok (out, last)) ∧
          out = recordsAt myFavoriteSongs
            (myFavoriteSongs.createIterator insertionSort .popularity).index ∧
          out.Perm myFavoriteSongs.privatePlaylist)) :=
  ⟨insertionSort_contract,
    C3_index_is_permutation_of_positions insertionSort insertionSort_contract
      myFavoriteSongs .popularity⟩

/-- On every cursor within the index vector `current()` does what it should: it raises
`out_of_range` if and only if `hasNext()` is false; on an entry of the index vector, the
entries being valid positions of the playlist (as they are for every iterator made by a
`create…Iterator` call, whatever is added to the playlist later), it returns the record
stored at the position under the cursor; and no call other than `current()` raises an
exception. -/
theorem current_on_cursors_within_index (stdSort : StdSort)
    (hs : StdSortContract stdSort) :
    (∀ (it : ConcreteIterator) (playlist : Playlist),
      it.current playlist = .error .out_of_range ↔ it.hasNext = false) ∧
    (∀ (it : ConcreteIterator) (playlist : Playlist),
      it.myIt < it.index.length →
      (∀ i ∈ it.index, i < playlist.privatePlaylist.length) →
      ∃ i s, it.index[it.myIt]? = some i ∧ playlist.privatePlaylist[i]? = some s ∧
        it.current playlist = .ok s) ∧
    (∀ (playlist : Playlist) (o : Order) (items : List Song),
      ∀ i ∈ (playlist.createIterator stdSort o).index,
        i < (playlist.addAll items).privatePlaylist.length) ∧
    (∀ (call : Call) (c : Client), call ≠ .current → ∃ r, call.run stdSort c = .ok r) := by
  refine ⟨current_out_of_range_iff, current_ok, ?_, ?_⟩
  · intro playlist o items
    exact createIterator_valid_addAll stdSort hs playlist o items
  · intro call c hcall
    cases call with
    | current => exact absurd rfl hcall
    | addToTheList item => exact ⟨_, rfl⟩
    | createAlphabeticIterator => exact ⟨_, rfl⟩
    | createLengthIterator => exact ⟨_, rfl⟩
    | createPopularityIterator => exact ⟨_, rfl⟩
    | first => exact ⟨_, rfl⟩
    | hasNext => exact ⟨_, rfl⟩
    | next => exact ⟨_, rfl⟩

/-- C4, the code at the failing input: on a playlist of one record a new iterator is on its
only entry and `current()` returns the record; after one `next()` call it is exhausted and
`current()` raises `out_of_range`; after a second `next()` call the cursor is past the end,
`hasNext()` is true, and `current()`, whose guard tests the end position only, neither raises
`out_of_range` nor returns a record: it reads outside the index vector. -/
theorem C4_current_past_the_end_reads_outside_index :
    (((Playlist.mk []).addToTheList ⟨"Bohemian", "a", 354, 1000⟩).createAlphabeticIterator
        insertionSort).current ((Playlist.mk []).addToTheList ⟨"Bohemian", "a", 354, 1000⟩)
      = .ok ⟨"Bohemian", "a", 354, 1000⟩ ∧
    (((Playlist.mk []).addToTheList ⟨"Bohemian", "a", 354, 1000⟩).createAlphabeticIterator
        insertionSort).next.hasNext = false ∧
    (((Playlist.mk []).addToTheList ⟨"Bohemian", "a", 354, 1000⟩).createAlphabeticIterator
        insertionSort).next.current
          ((Playlist.mk []).addToTheList ⟨"Bohemian", "a", 354, 1000⟩)
      = .error .out_of_range ∧
    (((Playlist.mk []).addToTheList ⟨"Bohemian", "a", 354, 1000⟩).createAlphabeticIterator
        insertionSort).next.next.hasNext = true ∧
    (((Playlist.mk []).addToTheList ⟨"Bohemian", "a", 354, 1000⟩).createAlphabeticIterator
        insertionSort).next.next.current
          ((Playlist.mk []).addToTheList ⟨"Bohemian", "a", 354, 1000⟩)
      = .error .undefined_behaviour := by
  refine ⟨rfl, rfl, rfl, rfl, rfl⟩

/-- C5, the code at the failing input: a new iterator on the empty playlist is exhausted
(`hasNext()` is false and `current()` raises `out_of_range`); one `next()` call moves the
cursor past the end, after which `hasNext()` is true and `current()` no longer raises
`out_of_range` but reads outside the index vector.  The same happens in every exhausted state,
whatever the index vector and the playlist. -/
theorem C5_next_on_exhausted_leaves_exhausted_state :
    (((Playlist.mk []).createAlphabeticIterator insertionSort).hasNext = false ∧
      ((Playlist.mk []).createAlphabeticIterator insertionSort).current (Playlist.mk [])
        = .error .out_of_range ∧
      ((Playlist.mk []).createAlphabeticIterator insertionSort).next.hasNext = true ∧
      ((Playlist.mk []).createAlphabeticIterator insertionSort).next.current (Playlist.mk [])
        = .error .undefined_behaviour) ∧
    (∀ (index : List Nat) (playlist : Playlist),
      (ConcreteIterator.mk index index.length).hasNext = false ∧
      (ConcreteIterator.mk index index.length).next.hasNext = true ∧
      (ConcreteIterator.mk index index.length).next.next.hasNext = true ∧
      (ConcreteIterator.mk index index.length).next.current playlist
        = .error .undefined_behaviour) := by
  refine ⟨⟨rfl, rfl, rfl, rfl⟩, ?_⟩
  intro index playlist
  refine ⟨by simp [ConcreteIterator.hasNext], by simp [ConcreteIterator.hasNext,
    ConcreteIterator.next], ?_, ?_⟩
  · simp only [ConcreteIterator.hasNext, ConcreteIterator.next, bne_iff_ne, ne_eq]
    omega
  · have h : index[index.length + 1]? = none := List.getElem?_eq_none (by omega)
    simp [ConcreteIterator.current, ConcreteIterator.next, h]

/-- C6: for every playlist, each of the three orders, every sort that meets the contract of
`std::sort` and every list of records added with `addToTheList` after the iterator was
created, the canonical loop on that iterator ends (any fuel above the size at creation is
enough), leaves the iterator exhausted, and reads exactly as many records as the playlist held
when the iterator was created. -/
theorem C6_drain_count_is_size_at_creation (stdSort : StdSort)
    (hs : StdSortContract stdSort) (playlist : Playlist) (o : Order) (items : List Song)
    (fuel : Nat) (hf : playlist.privatePlaylist.length < fuel) :
    ∃ out last,
      drain (playlist.addAll items) fuel (playlist.createIterator stdSort o)
        = some (.ok (out, last)) ∧
      out.length = playlist.privatePlaylist.length ∧
      last.hasNext = false := by
  have hd := drain_createIterator stdSort hs playlist o items fuel hf
  have hv := createIterator_valid stdSort hs playlist o
  refine ⟨_, _, hd, ?_, ?_⟩
  · rw [recordsAt_length playlist _ hv, createIterator_length stdSort hs]
  · simp [ConcreteIterator.hasNext, createIterator_length stdSort hs]

theorem C6_witness :
    StdSortContract insertionSort ∧ myFavoriteSongs.privatePlaylist.length < 7 ∧
    ∃ out last,
      drain (myFavoriteSongs.addAll [⟨"Yesterday", "e", 125, 950⟩, ⟨"Angie", "f", 273, 700⟩]) 7
          (myFavoriteSongs.createIterator insertionSort .length)
        = some (.ok (out, last)) ∧
      out.length = myFavoriteSongs.privatePlaylist.length ∧
      last.hasNext = false :=
  ⟨insertionSort_contract, by decide,
    C6_drain_count_is_size_at_creation insertionSort insertionSort_contract myFavoriteSongs
      .length [⟨"Yesterday", "e", 125, 950⟩, ⟨"Angie", "f", 273, 700⟩] 7 (by decide)⟩

/-- C7: an iterator is a snapshot.  For every playlist, order, record `r` and sort that meets
the contract of `std::sort`: the canonical loop on an iterator created before
`addToTheList(r)` gives the same result (records and final state) after the call as before
it, and gives it again when run once before and once after the call; the call leaves the
iterator the client holds as it is (its index vector is not recomputed); and the position of
the new record does not occur in the index vector. -/
theorem C7_iterator_is_snapshot (stdSort : StdSort) (hs : StdSortContract stdSort)
    (playlist : Playlist) (o : Order) (r : Song) (fuel : Nat)
    (hf : playlist.privatePlaylist.length < fuel) :
    (∃ out last,
      drain playlist fuel (playlist.createIterator stdSort o) = some (.ok (out, last)) ∧
      drain (playlist.addToTheList r) fuel (playlist.createIterator stdSort o)
        = some (.ok (out, last)) ∧
      drain (playlist.addToTheList r) fuel last = some (.ok (out, last))) ∧
    (Call.run stdSort (.addToTheList r) ⟨playlist, playlist.createIterator stdSort o⟩
      = .ok (.void, ⟨playlist.addToTheList r, playlist.createIterator stdSort o⟩)) ∧
    (playlist.addToTheList r).privatePlaylist[playlist.privatePlaylist.length]? = some r ∧
    playlist.privatePlaylist.length ∉ (playlist.createIterator stdSort o).index := by
  have hv := createIterator_valid stdSort hs playlist o
  have hlen := createIterator_length stdSort hs playlist o
  refine ⟨⟨_, _, drain_createIterator stdSort hs playlist o [] fuel hf,
    drain_createIterator stdSort hs playlist o [r] fuel hf, ?_⟩, rfl, ?_, ?_⟩
  · have h := drain_eq (playlist.addAll [r])
      { index := (playlist.createIterator stdSort o).index,
        myIt := playlist.privatePlaylist.length }
      (createIterator_valid_addAll stdSort hs playlist o [r]) fuel (by simpa [hlen] using hf)
    rw [recordsAt_addAll playlist [r] _ hv] at h
    simpa [hlen] using h
  · simp [Playlist.addToTheList]
  · intro h
    exact absurd (hv _ h) (Nat.lt_irrefl _)

theorem C7_witness :
    StdSortContract insertionSort ∧ myFavoriteSongs.privatePlaylist.length < 5 ∧
    ((∃ out last,
      drain myFavoriteSongs 5 (myFavoriteSongs.createIterator insertionSort .alphabetic)
        = some (.ok (out, last)) ∧
      drain (myFavoriteSongs.addToTheList ⟨"Angie", "f", 273, 700⟩) 5
          (myFavoriteSongs.createIterator insertionSort .alphabetic)
        = some (.ok (out, last)) ∧
      drain (myFavoriteSongs.addToTheList ⟨"Angie", "f", 273, 700⟩) 5 last
        = some (.ok (out, last))) ∧
    (Call.run insertionSort (.addToTheList ⟨"Angie", "f", 273, 700⟩)
        ⟨myFavoriteSongs, myFavoriteSongs.createIterator insertionSort .alphabetic⟩
      = .ok (.void, ⟨myFavoriteSongs.addToTheList ⟨"Angie", "f", 273, 700⟩,
          myFavoriteSongs.createIterator insertionSort .alphabetic⟩)) ∧
    (myFavoriteSongs.addToTheList ⟨"Angie", "f", 273, 700⟩).privatePlaylist[
        myFavoriteSongs.privatePlaylist.length]? = some ⟨"Angie", "f", 273, 700⟩ ∧
    myFavoriteSongs.privatePlaylist.length
      ∉ (myFavoriteSongs.createIterator insertionSort .alphabetic).index) :=
  ⟨insertionSort_contract, by decide,
    C7_iterator_is_snapshot insertionSort insertionSort_contract myFavoriteSongs .alphabetic
      ⟨"Angie", "f", 273, 700⟩ 5 (by decide)⟩

/-- C8: for every iterator made by a `create…Iterator` call, in whatever cursor state it is
and whatever was added to the playlist since, the canonical loop ends, and `first()` followed
by a second run of the loop on the drained iterator reads the identical sequence of records
(and ends in the same state). -/
theorem C8_second_drain_reads_same_records (stdSort : StdSort)
    (hs : StdSortContract stdSort) (playlist : Playlist) (o : Order) (items : List Song)
    (k fuel : Nat) (hf : playlist.privatePlaylist.length < fuel) :
    ∃ out last,
      drain (playlist.addAll items) fuel
          { index := (playlist.createIterator stdSort o).index, myIt := k }
        = some (.ok (out, last)) ∧
      drainLoop (playlist.addAll items) fuel last.first = some (.ok (out, last)) ∧
      drain (playlist.addAll items) fuel last = some (.ok (out, last)) := by
  have hlen := createIterator_length stdSort hs playlist o
  have hva := createIterator_valid_addAll stdSort hs playlist o items
  have h1 := drain_eq (playlist.addAll items)
    { index := (playlist.createIterator stdSort o).index, myIt := k } hva fuel
    (by simpa [hlen] using hf)
  have h2 := drain_eq (playlist.addAll items)
    { index := (playlist.createIterator stdSort o).index,
      myIt := (playlist.createIterator stdSort o).index.length } hva fuel
    (by simpa [hlen] using hf)
  exact ⟨_, _, h1, h2, h2⟩

theorem C8_witness :
    StdSortContract insertionSort ∧ myFavoriteSongs.privatePlaylist.length < 5 ∧
    ∃ out last,
      drain (myFavoriteSongs.addAll [⟨"Angie", "f", 273, 700⟩]) 5
          { index := (myFavoriteSongs.createIterator insertionSort .popularity).index,
            myIt := 2 }
        = some (.ok (out, last)) ∧
      drainLoop (myFavoriteSongs.addAll [⟨"Angie", "f", 273, 700⟩]) 5 last.first
        = some (.ok (out, last)) ∧
      drain (myFavoriteSongs.addAll [⟨"Angie", "f", 273, 700⟩]) 5 last
        = some (.ok (out, last)) :=
  ⟨insertionSort_contract, by decide,
    C8_second_drain_reads_same_records insertionSort insertionSort_contract myFavoriteSongs
      .popularity [⟨"Angie", "f", 273, 700⟩] 2 5 (by decide)⟩

/-- C9: for the empty playlist, each of the three orders and every sort that meets the
contract of `std::sort`, the `create…Iterator` call succeeds and gives an iterator with an
empty index vector; right after construction, and again after `first()`, `hasNext()` is false
and `current()` raises `out_of_range`. -/
theorem C9_iterator_on_empty_playlist (stdSort : StdSort) (hs : StdSortContract stdSort)
    (o : Order) :
    (Playlist.mk []).createIterator stdSort o = { index := [], myIt := 0 } ∧
    (∀ it, ∃ r,
      Call.run stdSort .createAlphabeticIterator ⟨Playlist.mk [], it⟩ = .ok r ∧
      r.2.it.index = []) ∧
    (∀ it, ∃ r,
      Call.run stdSort .createLengthIterator ⟨Playlist.mk [], it⟩ = .ok r ∧
      r.2.it.index = []) ∧
    (∀ it, ∃ r,
      Call.run stdSort .createPopularityIterator ⟨Playlist.mk [], it⟩ = .ok r ∧
      r.2.it.index = []) ∧
    ((Playlist.mk []).createIterator stdSort o).hasNext = false ∧
    ((Playlist.mk []).createIterator stdSort o).current (Playlist.mk [])
      = .error .out_of_range ∧
    ((Playlist.mk []).createIterator stdSort o).first.hasNext = false ∧
    ((Playlist.mk []).createIterator stdSort o).first.current (Playlist.mk [])
      = .error .out_of_range := by
  have hnil : ∀ o' : Order, (Playlist.mk []).createIterator stdSort o'
      = { index := [], myIt := 0 } := by
    intro o'
    have hlen := createIterator_length stdSort hs (Playlist.mk []) o'
    have hidx : ((Playlist.mk []).createIterator stdSort o').index = [] :=
      List.length_eq_zero.mp (by simpa using hlen)
    have hmy := createIterator_myIt stdSort (Playlist.mk []) o'
    cases hc : (Playlist.mk []).createIterator stdSort o' with
    | mk index myIt =>
      rw [hc] at hidx hmy
      simp only at hidx hmy
      rw [hidx, hmy]
  refine ⟨hnil o, ?_, ?_, ?_, ?_, ?_, ?_, ?_⟩
  · intro it
    exact ⟨_, rfl, congrArg ConcreteIterator.index (hnil .alphabetic)⟩
  · intro it
    exact ⟨_, rfl, congrArg ConcreteIterator.index (hnil .length)⟩
  · intro it
    exact ⟨_, rfl, congrArg ConcreteIterator.index (hnil .popularity)⟩
  · rw [hnil o]; rfl
  · rw [hnil o]; rfl
  · rw [hnil o]; rfl
  · rw [hnil o]; rfl

theorem C9_witness :
    StdSortContract insertionSort ∧
    ((Playlist.mk []).createIterator insertionSort .length = { index := [], myIt := 0 } ∧
    (∀ it, ∃ r,
      Call.run insertionSort .createAlphabeticIterator ⟨Playlist.mk [], it⟩ = .ok r ∧
      r.2.it.index = []) ∧
    (∀ it, ∃ r,
      Call.run insertionSort .createLengthIterator ⟨Playlist.mk [], it⟩ = .ok r ∧
      r.2.it.index = []) ∧
    (∀ it, ∃ r,
      Call.run insertionSort .createPopularityIterator ⟨Playlist.mk [], it⟩ = .ok r ∧
      r.2.it.index = []) ∧
    ((Playlist.mk []).createIterator insertionSort .length).hasNext = false ∧
    ((Playlist.mk []).createIterator insertionSort .length).current (Playlist.mk [])
      = .error .out_of_range ∧
    ((Playlist.mk []).createIterator insertionSort .length).first.hasNext = false ∧
    ((Playlist.mk []).createIterator insertionSort .length).first.current (Playlist.mk [])
      = .error .out_of_range) :=
  ⟨insertionSort_contract,
    C9_iterator_on_empty_playlist insertionSort insertionSort_contract .length⟩

/-- C10: for every playlist and every record `r`, whatever its fields, `addToTheList(r)`
succeeds and makes the backing sequence the old sequence followed by `r`: the size grows by
exactly one, `r` is at the last position, and every record stored before keeps its position
and value. -/
theorem C10_addToTheList_appends (stdSort : StdSort) (playlist : Playlist) (r : Song)
    (it : ConcreteIterator) :
    (playlist.addToTheList r).privatePlaylist = playlist.privatePlaylist ++ [r] ∧
    (playlist.addToTheList r).privatePlaylist.length = playlist.privatePlaylist.length + 1 ∧
    (playlist.addToTheList r).privatePlaylist[playlist.privatePlaylist.length]? = some r ∧
    (playlist.addToTheList r).privatePlaylist.getLast? = some r ∧
    (∀ i, i < playlist.privatePlaylist.length →
      (playlist.addToTheList r).privatePlaylist[i]? = playlist.privatePlaylist[i]?) ∧
    Call.run stdSort (.addToTheList r) ⟨playlist, it⟩
      = .ok (.void, ⟨playlist.addToTheList r, it⟩) := by
  refine ⟨rfl, by simp [Playlist.addToTheList], by simp [Playlist.addToTheList],
    by simp [Playlist.addToTheList], ?_, rfl⟩
  intro i hi
  simp only [Playlist.addToTheList]
  exact List.getElem?_append_left hi

/-- C12, the code at the failing input: on the iterator of the empty playlist (`N = 0`) one
`next()` call gives cursor `1 > N`, and `hasNext()` is true there although the cursor is on no
entry of the index vector.  In general `n` calls of `next()` move the cursor of any iterator
`n` positions forward and leave the index vector as it is, so the cursor is not bounded by
`N`. -/
theorem C12_cursor_passes_the_end :
    (((Playlist.mk []).createLengthIterator insertionSort).after [.next]).index.length = 0 ∧
    (((Playlist.mk []).createLengthIterator insertionSort).after [.next]).myIt = 1 ∧
    (((Playlist.mk []).createLengthIterator insertionSort).after [.next]).hasNext = true ∧
    (((Playlist.mk []).createLengthIterator insertionSort).after [.next]).index[
      (((Playlist.mk []).createLengthIterator insertionSort).after [.next]).myIt]? = none ∧
    (∀ (it : ConcreteIterator) (n : Nat),
      (it.after (List.replicate n .next)).index = it.index ∧
      (it.after (List.replicate n .next)).myIt = it.myIt + n) := by
  refine ⟨rfl, rfl, rfl, rfl, ?_⟩
  intro it n
  exact ⟨after_index it _, after_replicate_next it n⟩

/-- C13: for every playlist, order and sort, and every state an iterator is brought to by a
finite sequence of `first()` and `next()` calls, `first()` gives back exactly the state the
iterator had right after construction; construction leaves the state that `first()` leaves.
In every state `first()` keeps the index vector, puts the cursor at offset `0` (the
exhausted state exactly when the index vector is empty) and is idempotent. -/
theorem C13_first_restores_state_after_construction (stdSort : StdSort)
    (playlist : Playlist) (o : Order) (moves : List Move) :
    ((playlist.createIterator stdSort o).after moves).first
      = playlist.createIterator stdSort o ∧
    (playlist.createIterator stdSort o).first = playlist.createIterator stdSort o ∧
    (∀ it : ConcreteIterator,
      it.first.index = it.index ∧ it.first.myIt = 0 ∧ it.first.first = it.first ∧
      (it.first.hasNext = false ↔ it.index = [])) := by
  have h0 := createIterator_myIt stdSort playlist o
  refine ⟨?_, ?_, ?_⟩
  · have hi := after_index (playlist.createIterator stdSort o) moves
    cases hc : playlist.createIterator stdSort o with
    | mk index myIt =>
      rw [hc] at h0 hi
      simp only at h0 hi
      subst h0
      simp only [ConcreteIterator.first, hi]
  · cases hc : playlist.createIterator stdSort o with
    | mk index myIt =>
      rw [hc] at h0
      simp only at h0
      simp only [ConcreteIterator.first, h0]
  · intro it
    refine ⟨rfl, rfl, rfl, ?_⟩
    simp only [ConcreteIterator.hasNext, ConcreteIterator.first]
    constructor
    · intro h
      have h2 : it.index.length = 0 := by
        simp only [bne_eq_false_iff_eq] at h
        exact h.symm
      exact List.length_eq_zero.mp h2
    · intro h
      simp [h]

/-- C14, the code at the failing input: the constructor of `Song` stores the popularity it is
given without a check, and every record that `ClientCode` puts in its playlist has a
popularity above `100` (the first one `1000`), against the comment `a score from 1 to 100` at
the field. -/
theorem C14_popularity_is_not_kept_within_1_and_100 :
    (Song.mk "Bohemian" "a" 354 1000).popularity = 1000 ∧
    Song.mk "Bohemian" "a" 354 1000 ∈ myFavoriteSongs.privatePlaylist ∧
    (∀ s ∈ myFavoriteSongs.privatePlaylist, 100 < s.popularity) ∧
    (∀ (t a : String) (l p : Int), (Song.mk t a l p).popularity = p) := by
  refine ⟨rfl, ?_, ?_, fun _ _ _ _ => rfl⟩
  · simp [myFavoriteSongs, Playlist.addToTheList]
  · intro s hs
    simp only [myFavoriteSongs, Playlist.addToTheList, List.nil_append, List.cons_append,
      List.mem_cons, List.mem_singleton, List.not_mem_nil, or_false] at hs
    rcases hs with rfl | rfl | rfl | rfl <;> decide

/-- C15: on every playlist of size `n`, each of the three comparators (`a.title < b.title`,
`a.length > b.length`, `a.popularity > b.popularity`), lifted to positions as `sortIndices`
does, is a strict weak ordering of the positions `0 … n-1`: irreflexive, asymmetric,
transitive, and with transitive incomparability.  This is the precondition of the sort
contract for the index vector. -/
theorem C15_lifted_comparators_are_strict_weak_orderings (playlist : Playlist) (o : Order) :
    (∀ a, a < playlist.privatePlaylist.length →
      indexCompare playlist o.comp a a = false) ∧
    (∀ a b, a < playlist.privatePlaylist.length → b < playlist.privatePlaylist.length →
      indexCompare playlist o.comp a b = true → indexCompare playlist o.comp b a = false) ∧
    (∀ a b c, a < playlist.privatePlaylist.length → b < playlist.privatePlaylist.length →
      c < playlist.privatePlaylist.length →
      indexCompare playlist o.comp a b = true → indexCompare playlist o.comp b c = true →
      indexCompare playlist o.comp a c = true) ∧
    (∀ a b c, a < playlist.privatePlaylist.length → b < playlist.privatePlaylist.length →
      c < playlist.privatePlaylist.length →
      indexCompare playlist o.comp a b = false → indexCompare playlist o.comp b a = false →
      indexCompare playlist o.comp b c = false → indexCompare playlist o.comp c b = false →
      indexCompare playlist o.comp a c = false ∧ indexCompare playlist o.comp c a = false) ∧
    StrictWeakOrderOn (indexCompare playlist o.comp)
      (List.range playlist.privatePlaylist.length) := by
  have h := indexCompare_strictWeakOrderOn playlist o.comp
    (o.comp_strictWeakOrderOn playlist.privatePlaylist)
    (List.range playlist.privatePlaylist.length) (fun a ha => List.mem_range.mp ha)
  have hm : ∀ a, a < playlist.privatePlaylist.length →
      a ∈ List.range playlist.privatePlaylist.length := fun a ha => List.mem_range.mpr ha
  refine ⟨?_, ?_, ?_, ?_, h⟩
  · intro a ha
    exact h.1 a (hm a ha)
  · intro a b ha hb hab
    exact h.asymm (hm a ha) (hm b hb) hab
  · intro a b c ha hb hc
    exact h.2.1 a (hm a ha) b (hm b hb) c (hm c hc)
  · intro a b c ha hb hc
    exact h.2.2 a (hm a ha) b (hm b hb) c (hm c hc)

/-- C16: for every playlist whose records have pairwise distinct values of the key of the
order (title, length or popularity) and every sort that meets the contract of `std::sort`,
any permutation of the positions `0 … n-1` that is sorted under the lifted comparator of the
order equals the index vector of the iterator; hence every sort that meets the contract
builds the same iterator, and only ties on equal keys can make the order depend on the
sorting algorithm. -/
theorem C16_order_is_unique_for_distinct_keys (stdSort : StdSort)
    (hs : StdSortContract stdSort) (playlist : Playlist) (o : Order)
    (hd : o.keysDistinct playlist) (l : List Nat)
    (hperm : l.Perm (List.range playlist.privatePlaylist.length))
    (hsorted : l.Pairwise (fun a b => indexCompare playlist o.comp b a = false)) :
    l = (playlist.createIterator stdSort o).index ∧
    (∀ other : StdSort, StdSortContract other →
      playlist.createIterator other o = playlist.createIterator stdSort o) := by
  have huniq : ∀ s : StdSort, StdSortContract s → (playlist.createIterator s o).index = l :=
    fun s h => sorted_positions_unique playlist o hd _ l
      (createIterator_index s h playlist o).1 hperm
      (createIterator_index s h playlist o).2 hsorted
  refine ⟨(huniq stdSort hs).symm, ?_⟩
  intro other ho
  have h1 := huniq other ho
  have h2 := huniq stdSort hs
  have m1 := createIterator_myIt other playlist o
  have m2 := createIterator_myIt stdSort playlist o
  cases hc1 : playlist.createIterator other o with
  | mk i1 c1 =>
    cases hc2 : playlist.createIterator stdSort o with
    | mk i2 c2 =>
      rw [hc1] at h1 m1
      rw [hc2] at h2 m2
      simp only at h1 m1 h2 m2
      rw [h1, m1, h2, m2]

theorem C16_witness :
    StdSortContract insertionSort ∧ Order.length.keysDistinct myFavoriteSongs ∧
    [1, 3, 0, 2].Perm (List.range myFavoriteSongs.privatePlaylist.length) ∧
    [1, 3, 0, 2].Pairwise
      (fun a b => indexCompare myFavoriteSongs Order.length.comp b a = false) ∧
    ([1, 3, 0, 2] = (myFavoriteSongs.createIterator insertionSort .length).index ∧
    (∀ other : StdSort, StdSortContract other →
      myFavoriteSongs.createIterator other .length
        = myFavoriteSongs.createIterator insertionSort .length)) :=
  ⟨insertionSort_contract, by decide, by decide, by decide,
    C16_order_is_unique_for_distinct_keys insertionSort insertionSort_contract
      myFavoriteSongs .length (by decide) [1, 3, 0, 2] (by decide) (by decide)⟩

/-- C11: the playlist of `ClientCode` holds (Bohemian, 354, 1000), (Stairway, 482, 800),
(Imagined, 183, 1200), (Hey Jude, 431, 900) in that order, and for every sort that meets the
contract of `std::sort` the canonical loop reads Bohemian, Hey Jude, Imagined, Stairway from
the alphabetic iterator, Stairway, Hey Jude, Bohemian, Imagined from the length iterator and
Imagined, Bohemian, Hey Jude, Stairway from the popularity iterator. -/
theorem C11_orders_of_the_client_playlist (stdSort : StdSort)
    (hs : StdSortContract stdSort) (fuel : Nat) (hf : 4 < fuel) :
    myFavoriteSongs.privatePlaylist
      = [⟨"Bohemian", "a", 354, 1000⟩, ⟨"Stairway", "b", 482, 800⟩,
          ⟨"Imagined", "c", 183, 1200⟩, ⟨"Hey Jude", "d", 431, 900⟩] ∧
    drain myFavoriteSongs fuel (myFavoriteSongs.createAlphabeticIterator stdSort)
      = some (.ok ([⟨"Bohemian", "a", 354, 1000⟩, ⟨"Hey Jude", "d", 431, 900⟩,
          ⟨"Imagined", "c", 183, 1200⟩, ⟨"Stairway", "b", 482, 800⟩],
          { index := [0, 3, 2, 1], myIt := 4 })) ∧
    drain myFavoriteSongs fuel (myFavoriteSongs.createLengthIterator stdSort)
      = some (.ok ([⟨"Stairway", "b", 482, 800⟩, ⟨"Hey Jude", "d", 431, 900⟩,
          ⟨"Bohemian", "a", 354, 1000⟩, ⟨"Imagined", "c", 183, 1200⟩],
          { index := [1, 3, 0, 2], myIt := 4 })) ∧
    drain myFavoriteSongs fuel (myFavoriteSongs.createPopularityIterator stdSort)
      = some (.ok ([⟨"Imagined", "c", 183, 1200⟩, ⟨"Bohemian", "a", 354, 1000⟩,
          ⟨"Hey Jude", "d", 431, 900⟩, ⟨"Stairway", "b", 482, 800⟩],
          { index := [2, 0, 3, 1], myIt := 4 })) := by
  have ha : (myFavoriteSongs.createIterator stdSort .alphabetic).index = [0, 3, 2, 1] :=
    sorted_positions_unique myFavoriteSongs .alphabetic (by decide) _ [0, 3, 2, 1]
      (createIterator_index stdSort hs myFavoriteSongs .alphabetic).1 (by decide)
      (createIterator_index stdSort hs myFavoriteSongs .alphabetic).2 (by
        simp only [Order.comp, indexCompare, myFavoriteSongs, Playlist.addToTheList,
          titleLess, String.lt_iff_toList_lt]
        decide)
  have hl : (myFavoriteSongs.createIterator stdSort .length).index = [1, 3, 0, 2] :=
    sorted_positions_unique myFavoriteSongs .length (by decide) _ [1, 3, 0, 2]
      (createIterator_index stdSort hs myFavoriteSongs .length).1 (by decide)
      (createIterator_index stdSort hs myFavoriteSongs .length).2 (by decide)
  have hp : (myFavoriteSongs.createIterator stdSort .popularity).index = [2, 0, 3, 1] :=
    sorted_positions_unique myFavoriteSongs .popularity (by decide) _ [2, 0, 3, 1]
      (createIterator_index stdSort hs myFavoriteSongs .popularity).1 (by decide)
      (createIterator_index stdSort hs myFavoriteSongs .popularity).2 (by decide)
  have da := drain_createIterator stdSort hs myFavoriteSongs .alphabetic [] fuel hf
  have dl := drain_createIterator stdSort hs myFavoriteSongs .length [] fuel hf
  have dp := drain_createIterator stdSort hs myFavoriteSongs .popularity [] fuel hf
  rw [ha] at da
  rw [hl] at dl
  rw [hp] at dp
  exact ⟨rfl, da, dl, dp⟩

theorem C11_witness :
    StdSortContract insertionSort ∧ 4 < 5 ∧
    (myFavoriteSongs.privatePlaylist
      = [⟨"Bohemian", "a", 354, 1000⟩, ⟨"Stairway", "b", 482, 800⟩,
          ⟨"Imagined", "c", 183, 1200⟩, ⟨"Hey Jude", "d", 431, 900⟩] ∧
    drain myFavoriteSongs 5 (myFavoriteSongs.createAlphabeticIterator insertionSort)
      = some (.ok ([⟨"Bohemian", "a", 354, 1000⟩, ⟨"Hey Jude", "d", 431, 900⟩,
          ⟨"Imagined", "c", 183, 1200⟩, ⟨"Stairway", "b", 482, 800⟩],
          { index := [0, 3, 2, 1], myIt := 4 })) ∧
    drain myFavoriteSongs 5 (myFavoriteSongs.createLengthIterator insertionSort)
      = some (.ok ([⟨"Stairway", "b", 482, 800⟩, ⟨"Hey Jude", "d", 431, 900⟩,
          ⟨"Bohemian", "a", 354, 1000⟩, ⟨"Imagined", "c", 183, 1200⟩],
          { index := [1, 3, 0, 2], myIt := 4 })) ∧
    drain myFavoriteSongs 5 (myFavoriteSongs.createPopularityIterator insertionSort)
      = some (.ok ([⟨"Imagined", "c", 183, 1200⟩, ⟨"Bohemian", "a", 354, 1000⟩,
          ⟨"Hey Jude", "d", 431, 900⟩, ⟨"Stairway", "b", 482, 800⟩],
          { index := [2, 0, 3, 1], myIt := 4 }))) :=
  ⟨insertionSort_contract, by decide,
    C11_orders_of_the_client_playlist insertionSort insertionSort_contract 5 (by decide)⟩

end Claims

end IteratorSeminar

namespace VisitorSeminar

/-! ## Facts about the export -/

section Export

theorem nesting_append (a b : List String) (stack : List Tag) :
    nesting (a ++ b) stack = (nesting a stack).bind (nesting b) := by
  induction a generalizing stack with
  | nil => rfl
  | cons line rest ih =>
    simp only [List.cons_append, nesting]
    split
    · exact ih _
    · split
      · cases closeTag .school stack with
        | none => rfl
        | some below => exact ih below
      · split
        · cases closeTag .cls stack with
          | none => rfl
          | some below => exact ih below
        · split
          · exact ih _
          · exact ih _

theorem nesting_leaf (line : String) (tl : List Char) (h : line.data = ' ' :: tl)
    (rest : List String) (stack : List Tag) :
    nesting (line :: rest) stack = nesting rest stack := by
  have h1 : ¬ line = "<school>" := by
    intro he
    rw [he] at h
    have hq : "<school>".data = '<' :: "school>".data := rfl
    rw [hq] at h
    exact absurd (List.cons.inj h).1 (by decide)
  have h2 : ¬ line = "</school>" := by
    intro he
    rw [he] at h
    have hq : "</school>".data = '<' :: "/school>".data := rfl
    rw [hq] at h
    exact absurd (List.cons.inj h).1 (by decide)
  have h3 : ¬ line = "</class>" := by
    intro he
    rw [he] at h
    have hq : "</class>".data = '<' :: "/class>".data := rfl
    rw [hq] at h
    exact absurd (List.cons.inj h).1 (by decide)
  have h4 : "<class name='".toList.isPrefixOf line.toList = false := by
    show "<class name='".data.isPrefixOf line.data = false
    rw [h]
    rfl
  rw [nesting, if_neg h1, if_neg h2, if_neg h3, h4]
  rfl

theorem nesting_open (name : String) (rest : List String) (stack : List Tag) :
    nesting (("<class name='" ++ name ++ "'>") :: rest) stack = nesting rest (.cls :: stack) := by
  have hd : ("<class name='" ++ name ++ "'>").data
      = '<' :: 'c' :: ("lass name='".data ++ name.data ++ "'>".data) := by
    simp only [String.data_append]
    rfl
  have h1 : "<class name='" ++ name ++ "'>" ≠ "<school>" := by
    intro he
    have := congrArg String.data he
    rw [hd] at this
    have h := (List.cons.inj (List.cons.inj this).2).1
    exact absurd h (by decide)
  have h2 : "<class name='" ++ name ++ "'>" ≠ "</school>" := by
    intro he
    have := congrArg String.data he
    rw [hd] at this
    have h := (List.cons.inj (List.cons.inj this).2).1
    exact absurd h (by decide)
  have h3 : "<class name='" ++ name ++ "'>" ≠ "</class>" := by
    intro he
    have := congrArg String.data he
    rw [hd] at this
    have h := (List.cons.inj (List.cons.inj this).2).1
    exact absurd h (by decide)
  have h4 : "<class name='".toList.isPrefixOf ("<class name='" ++ name ++ "'>").toList
      = true := by
    rw [List.isPrefixOf_iff_prefix]
    show "<class name='".data <+: ("<class name='" ++ name ++ "'>").data
    simp only [String.data_append, List.append_assoc]
    exact List.prefix_append _ _
  rw [nesting, if_neg h1, if_neg h2, if_neg h3, h4]
  rfl

theorem nesting_close_class (rest : List String) (stack : List Tag) :
    nesting ("</class>" :: rest) (.cls :: stack) = nesting rest stack := by
  rw [nesting, if_neg (by decide), if_neg (by decide), if_pos rfl]
  rfl

theorem visitStudent_nesting (s : Student) (stack : List Tag) :
    nesting (XMLExportVisitor.visitStudent s) stack = some stack := by
  unfold XMLExportVisitor.visitStudent
  rw [nesting_leaf _ (" <student id='".data ++ ((s.getDetail "id").data
    ++ ("' name='".data ++ ((s.getDetail "name").data ++ "'/>".data))))
    (by simp only [String.data_append, List.append_assoc]; rfl)]
  rfl

theorem visitTeacher_nesting (t : Teacher) (stack : List Tag) :
    nesting (XMLExportVisitor.visitTeacher t) stack = some stack := by
  unfold XMLExportVisitor.visitTeacher
  rw [nesting_leaf _ (" <teacher id='".data ++ ((t.getDetail "id").data
    ++ ("' subject='".data ++ ((t.getDetail "subject").data ++ "'/>".data))))
    (by simp only [String.data_append, List.append_assoc]; rfl)]
  rfl

theorem visitEquipment_nesting (e : Equipment) (stack : List Tag) :
    nesting (XMLExportVisitor.visitEquipment e) stack = some stack := by
  unfold XMLExportVisitor.visitEquipment
  rw [nesting_leaf _ (" <equipment id='".data ++ ((e.getDetail "id").data
    ++ ("' description='".data ++ ((e.getDetail "description").data ++ "'/>".data))))
    (by simp only [String.data_append, List.append_assoc]; rfl)]
  rfl

mutual
theorem accept_nesting : ∀ (e : SchoolEntity) (stack : List Tag),
    nesting e.accept stack = some stack
  | .ofStudent s, stack => by
    simp only [SchoolEntity.accept]
    exact visitStudent_nesting s stack
  | .ofTeacher t, stack => by
    simp only [SchoolEntity.accept]
    exact visitTeacher_nesting t stack
  | .ofEquipment e, stack => by
    simp only [SchoolEntity.accept]
    exact visitEquipment_nesting e stack
  | .ofClass c, stack => by
    simp only [SchoolEntity.accept]
    exact visitClass_nesting c stack
theorem visitClass_nesting : ∀ (c : Class) (stack : List Tag),
    nesting (XMLExportVisitor.visitClass c) stack = some stack
  | .mk name members _, stack => by
    simp only [XMLExportVisitor.visitClass, List.singleton_append, List.cons_append,
      List.nil_append]
    rw [nesting_open, nesting_append, visitMembers_nesting members (.cls :: stack)]
    exact nesting_close_class [] stack
theorem visitMembers_nesting : ∀ (members : List SchoolEntity) (stack : List Tag),
    nesting (XMLExportVisitor.visitMembers members) stack = some stack
  | [], stack => by simp [XMLExportVisitor.visitMembers, nesting]
  | m :: rest, stack => by
    simp only [XMLExportVisitor.visitMembers]
    rw [nesting_append, accept_nesting m stack]
    exact visitMembers_nesting rest stack
end

theorem visitMembers_eq_flatten (members : List SchoolEntity) :
    XMLExportVisitor.visitMembers members = (members.map SchoolEntity.accept).flatten := by
  induction members with
  | nil => simp [XMLExportVisitor.visitMembers]
  | cons m rest ih => simp [XMLExportVisitor.visitMembers, ih]

theorem exportEntities_eq_flatten (entities : List SchoolEntity) :
    Application.exportEntities entities = (entities.map SchoolEntity.accept).flatten := by
  induction entities with
  | nil => simp [Application.exportEntities]
  | cons e rest ih => simp [Application.exportEntities, ih]

theorem exportEntities_nesting (entities : List SchoolEntity) (stack : List Tag) :
    nesting (Application.exportEntities entities) stack = some stack := by
  induction entities with
  | nil => simp [Application.exportEntities, nesting]
  | cons e rest ih =>
    simp only [Application.exportEntities]
    rw [nesting_append, accept_nesting e stack]
    exact ih

theorem exportToXML_nesting (app : Application) :
    nesting app.exportToXML [] = some [] := by
  unfold Application.exportToXML
  rw [List.append_assoc, nesting_append]
  have h1 : nesting ["<school>"] [] = some [Tag.school] := by decide
  rw [h1]
  show nesting (Application.exportEntities app.entities ++ ["</school>"]) [Tag.school]
    = some []
  rw [nesting_append, exportEntities_nesting]
  decide

/-- The lines that `exportToXML` writes in `main`. -/
theorem schoolApp_exportToXML :
    schoolApp.exportToXML
      = ["<school>",
         "<class name='Science 101'>",
         "  <student id='S1001' name='Alice'/>",
         "  <teacher id='T2001' subject='Physics'/>",
         "  <equipment id='E3001' description='High-power microscope'/>",
         "</class>",
         "  <student id='S1002' name='Bob'/>",
         "</school>"] := by
  decide

theorem intercalate_go_append (p acc s : String) (l : List String) :
    String.intercalate.go (p ++ acc) s l = p ++ String.intercalate.go acc s l := by
  induction l generalizing acc with
  | nil => rfl
  | cons a rest ih =>
    simp only [String.intercalate.go]
    rw [String.append_assoc, String.append_assoc, ih, String.append_assoc]

theorem intercalate_cons_cons (s a b : String) (l : List String) :
    s.intercalate (a :: b :: l) = a ++ s ++ s.intercalate (b :: l) := by
  simp only [String.intercalate, String.intercalate.go]
  exact intercalate_go_append (a ++ s) b s l

/-- The loop of `Class::getDetail` appends the names of the remaining members, joined by
`", "`. -/
theorem getDetailLoop_eq (size : Nat) :
    ∀ (rest : List SchoolEntity) (i : Nat) (details : String), i + rest.length = size →
      Class.getDetailLoop size rest i details
        = details ++ ", ".intercalate (rest.map (fun m => m.getDetail "name"))
  | [], _, details, _ => by
    simp [Class.getDetailLoop, String.intercalate]
  | [m], i, details, h => by
    have hi : ¬ i < size - 1 := by
      simp only [List.length_singleton] at h
      omega
    simp [Class.getDetailLoop, hi, String.intercalate, String.intercalate.go]
  | m :: m₂ :: rest, i, details, h => by
    have hi : i < size - 1 := by
      simp only [List.length_cons] at h
      omega
    have ih := getDetailLoop_eq size (m₂ :: rest) (i + 1)
      (details ++ m.getDetail "name" ++ ", ") (by simp only [List.length_cons] at h ⊢; omega)
    rw [Class.getDetailLoop, if_pos hi, ih]
    simp only [List.map_cons]
    rw [intercalate_cons_cons ", " (m.getDetail "name") (m₂.getDetail "name")]
    simp only [String.append_assoc]

end Export

/-! ## The claims -/

section Claims

/-- C17: with the output taken as the list of lines written, `visitClass` on a class `c`
writes the line `<class name='NAME'>` with `NAME = c.getName()`, then what `accept` writes for
each member of `c` in the order of `members` (to which `addMember` appends; a member that is a
class is written by `visitClass` again), then the line `</class>`; `exportToXML` writes
`<school>`, what `accept` writes for each entity in the order of `entities` (to which
`addEntity` appends), then `</school>`.  Read with a stack of open elements, the lines of a
class leave every stack as they found it, and the lines of `exportToXML` start and end with
the empty stack: every opening line is closed by the matching closing line, in nested
order. -/
theorem C17_export_lines (c : Class) (member : SchoolEntity) (app : Application)
    (entity : SchoolEntity) (stack : List Tag) :
    XMLExportVisitor.visitClass c
      = ["<class name='" ++ c.getName ++ "'>"]
        ++ (c.getMembers.map SchoolEntity.accept).flatten ++ ["</class>"] ∧
    (SchoolEntity.ofClass c).accept = XMLExportVisitor.visitClass c ∧
    (c.addMember member).getMembers = c.getMembers ++ [member] ∧
    (c.addMember member).getName = c.getName ∧
    app.exportToXML
      = ["<school>"] ++ (app.entities.map SchoolEntity.accept).flatten ++ ["</school>"] ∧
    (app.addEntity entity).entities = app.entities ++ [entity] ∧
    nesting (XMLExportVisitor.visitClass c) stack = some stack ∧
    nesting app.exportToXML [] = some [] := by
  refine ⟨?_, ?_, ?_, ?_, ?_, rfl, visitClass_nesting c stack, exportToXML_nesting app⟩
  · cases c with
    | mk name members status =>
      simp only [XMLExportVisitor.visitClass, Class.getName, Class.getMembers,
        visitMembers_eq_flatten]
  · simp only [SchoolEntity.accept]
  · cases c with
    | mk name members status => rfl
  · cases c with
    | mk name members status => rfl
  · simp only [Application.exportToXML, exportEntities_eq_flatten]

/-- C18: for every class with name `n`, status `s` and members `m_1 … m_k` (`k ≥ 0`),
`getDetail("name")` returns `n`, and `getDetail(ctx)` for every other `ctx` returns
`"Class: Name=" + n + ", Status=" + s + ", Members=[" + J + "]"`, where `J` is the strings
`m_i.getDetail("name")` joined by `", "` (empty when `k = 0`, no separator before the first or
after the last); for a member that is a student that string is the name of the student, for
a member that is a class it is the name of the class. -/
theorem C18_class_getDetail (n s : String) (members : List SchoolEntity) (ctx : String)
    (student : Student) (inner : Class) :
    (Class.mk n members s).getDetail "name" = n ∧
    (Class.mk n members s).getDetail ctx
      = (if ctx = "name" then n
         else "Class: Name=" ++ n ++ ", Status=" ++ s ++ ", Members=["
           ++ ", ".intercalate (members.map (fun m => m.getDetail "name")) ++ "]") ∧
    (SchoolEntity.ofClass (Class.mk n members s)).getDetail ctx
      = (Class.mk n members s).getDetail ctx ∧
    ", ".intercalate ([] : List String) = "" ∧
    (SchoolEntity.ofStudent student).getDetail "name" = student.name ∧
    (SchoolEntity.ofClass inner).getDetail "name" = inner.getName := by
  refine ⟨?_, ?_, ?_, rfl, ?_, ?_⟩
  · simp only [Class.getDetail, if_true]
  · by_cases h : ctx = "name"
    · simp only [Class.getDetail, h, if_true]
    · simp only [Class.getDetail, h, if_false]
      rw [getDetailLoop_eq members.length members 0 _ (by omega)]
  · simp only [SchoolEntity.getDetail]
  · simp only [SchoolEntity.getDetail, Student.getDetail]
    rw [if_neg (by decide)]
    simp only [if_true]
  · cases inner with
    | mk name ms st => simp only [SchoolEntity.getDetail, Class.getDetail, if_true, Class.getName]

end Claims

end VisitorSeminar
